import Mathlib

/-!
Redis component: request normalisation and action dispatch.

A shallow embedding of `src/main.go`.  The program decodes one input document,
folds its parameter list into seven local variables, validates two of them,
issues at most one command to a redis client and encodes one output document.

Modelling conventions.

* Go strings produced by the JSON decoder are valid UTF-8, so a Go string is a
  Lean `String` (a list of Unicode scalar values).
* Go `int` is taken to be 64 bits wide (the 64-bit targets); `time.Duration` is
  an `int64`, and the product `time.Duration(expiration)*time.Second` wraps.
* The standard-library functions the program calls (`strings.TrimSpace`,
  `strings.ToLower`, `fmt.Sscanf` with the format `%d`) are modelled by what
  they return.  The Unicode case table used by `strings.ToLower` on non-ASCII
  runes is a parameter `lower : Char → Char`; everything proved holds for every
  such table.
* The redis server is external.  A store is a transition function from a
  command to a reply and a next state; `main` records every command it issues
  and every document it encodes.
-/

namespace RedisComponent

/-! ## Data model -/

/-- One element of `Input.Params`. -/
structure Param where
  InputName : String
  CompValue : String
deriving DecidableEq, Repr

/-- The decoded input document. -/
structure Input where
  Params : List Param
deriving DecidableEq, Repr

/-- The dynamic values the program stores in `Output.Result` (an `interface{}`):
a string, an `int64`, a bool or a slice of strings. -/
inductive Value where
  | str (s : String)
  | int (n : Int)
  | bool (b : Bool)
  | list (xs : List String)
deriving DecidableEq, Repr

/-- The output document; `Result = none` is the nil interface (JSON `null`). -/
structure Output where
  Result : Option Value
  Error : String
deriving DecidableEq, Repr

/-! ## Standard-library functions used by `main` -/

/-- The White_Space runes of `unicode.IsSpace` (the same set `fmt` skips). -/
def isSpace (c : Char) : Bool :=
  let n := c.toNat
  (0x09 ≤ n && n ≤ 0x0d) || n == 0x20 || n == 0x85 || n == 0xA0 || n == 0x1680 ||
  (0x2000 ≤ n && n ≤ 0x200a) || n == 0x2028 || n == 0x2029 || n == 0x202f ||
  n == 0x205f || n == 0x3000

/-- Model of `strings.TrimSpace`: leading and trailing white space removed. -/
def TrimSpace (s : String) : String :=
  ⟨List.rdropWhile isSpace (List.dropWhile isSpace s.data)⟩

/-- Model of `unicode.ToLower` on one rune: ASCII letters are shifted, other ASCII
runes are kept, and a non-ASCII rune is mapped by the case table `lower`. -/
def toLowerRune (lower : Char → Char) (c : Char) : Char :=
  if c.toNat < 128 then
    (if 65 ≤ c.toNat ∧ c.toNat ≤ 90 then Char.ofNat (c.toNat + 32) else c)
  else lower c

/-- Model of `strings.ToLower`: every rune mapped by `unicode.ToLower`. -/
def ToLower (lower : Char → Char) (s : String) : String :=
  ⟨s.data.map (toLowerRune lower)⟩

/-- The most runes one scan reads (`hugeWid` in package `fmt`). -/
def hugeWid : Nat := 2 ^ 30

/-- Model of `(*ss).SkipSpace` with `nlIsSpace = false`: white space is skipped,
a newline is the error "unexpected newline" (`none`). -/
def skipSpace : List Char → Option (List Char)
  | [] => some []
  | c :: cs =>
    if c = '\n' then none
    else if isSpace c then skipSpace cs
    else some (c :: cs)

/-- Value of a run of decimal digits, most significant first. -/
def digitsValue (ds : List Char) : Nat :=
  ds.foldl (fun n c => 10 * n + (c.toNat - 48)) 0

/-- Model of `fmt.Sscanf(str, "%d", &x)` for `x` of type `int`: `some n` when the
scan stores `n` in `x`, `none` when it fails and leaves `x` as it was.  The scan
skips white space, takes an optional sign and the longest run of decimal digits,
and fails when there is no digit or the number does not fit 64 bits; input left
after the digits is not looked at. -/
def Sscanf (str : String) : Option Int :=
  match skipSpace (str.data.take hugeWid) with
  | none => none
  | some [] => none
  | some (c :: cs) =>
    let body := if c = '+' ∨ c = '-' then cs else c :: cs
    let digits := body.takeWhile Char.isDigit
    if digits = [] then none
    else
      let n := digitsValue digits
      if c = '-' then (if n ≤ 2 ^ 63 then some (-(n : Int)) else none)
      else (if n < 2 ^ 63 then some (n : Int) else none)

/-- Two's-complement wrap of an integer to `int64`. -/
def wrapInt64 (x : Int) : Int :=
  (x + 2 ^ 63) % 2 ^ 64 - 2 ^ 63

/-- The constant `time.Second`, in nanoseconds. -/
def Second : Int := 1000000000

/-- The expression `time.Duration(expiration)*time.Second`, in nanoseconds. -/
def Duration (expiration : Int) : Int :=
  wrapInt64 (expiration * Second)

/-! ## The redis client -/

/-- The fields of `redis.Options` that `main` sets.  `Password` and `DB` carry the
`password` and `db` parameters; the source comments beside them ("no password
set", "use default DB") describe only the case where the parameters are absent. -/
structure Options where
  Addr : String
  Password : String
  DB : Int
deriving DecidableEq, Repr

/-- The client methods `main` calls, with their arguments; the expiration of
`Set` is a `time.Duration` in nanoseconds. -/
inductive Cmd where
  | Set (key value : String) (expiration : Int)
  | Get (key : String)
  | Del (key : String)
  | Exists (key : String)
  | Keys (pattern : String)
deriving DecidableEq, Repr

/-- A Go `error` returned by the client: the sentinel `redis.Nil`, or any other
error with its message. -/
inductive GoError where
  | Nil
  | other (msg : String)
deriving DecidableEq, Repr

/-- What a client call returns: the value of the command (`text` for `Get`,
`count` for `Del` and `Exists`, `names` for `Keys`) and the error, `none` for a
nil error.  A value may come back together with an error, as in Go. -/
structure Reply where
  text : String
  count : Int
  names : List String
  err : Option GoError
deriving DecidableEq, Repr

/-- A store with states `σ`: how it answers one command of a client opened with
the given options, and the state it is left in. -/
structure Store (σ : Type) where
  exec : Options → Cmd → σ → Reply × σ

/-- Text of an error as `%v` prints it. -/
def GoError.text : GoError → String
  | .Nil => "redis: nil"
  | .other msg => msg

/-! ## `main` -/

/-- The local variables of `main` that the parameter loop assigns. -/
structure Vars where
  addr : String
  password : String
  db : Int
  action : String
  key : String
  value : String
  expiration : Int
deriving DecidableEq, Repr

/-- The variables as declared: all zero values except `action = "get"`. -/
def Vars.init : Vars :=
  { addr := "", password := "", db := 0, action := "get", key := "", value := "",
    expiration := 0 }

/-- One iteration of the parameter loop (the `switch` on the lower-cased name). -/
def extractStep (lower : Char → Char) (v : Vars) (p : Param) : Vars :=
  let val := TrimSpace p.CompValue
  let name := ToLower lower p.InputName
  if name = "addr" then { v with addr := val }
  else if name = "password" then { v with password := val }
  else if name = "db" then { v with db := (Sscanf val).getD v.db }
  else if name = "action" then
    (if val ≠ "" then { v with action := ToLower lower val } else v)
  else if name = "key" then { v with key := val }
  else if name = "value" then { v with value := val }
  else if name = "expiration" then { v with expiration := (Sscanf val).getD v.expiration }
  else v

/-- The parameter loop: the variables after all parameters, in order. -/
def extract (lower : Char → Char) (ps : List Param) : Vars :=
  ps.foldl (extractStep lower) Vars.init

/-- What one run of `main` does: the documents written to standard output, the
client calls made (with the options of the client), and the store afterwards. -/
structure Run (σ : Type) where
  emitted : List Output
  calls : List (Options × Cmd)
  store : σ

/-- The final `if err != nil` of `main`: shaping of result and error. -/
def shape (result : Option Value) (err : Option GoError) : Output :=
  match err with
  | some .Nil => { Result := none, Error := "" }
  | some e => { Result := none, Error := "redis error: " ++ e.text }
  | none => { Result := result, Error := "" }

/-- The `switch action` of `main` with the final shaping, for a client with
options `o`. -/
def dispatch {σ : Type} (store : Store σ) (o : Options) (v : Vars) (s : σ) : Run σ :=
  if v.action = "set" then
    let c := Cmd.Set v.key v.value (Duration v.expiration)
    let r := store.exec o c s
    let result := if r.1.err = none then some (Value.str "OK") else none
    ⟨[shape result r.1.err], [(o, c)], r.2⟩
  else if v.action = "get" then
    let c := Cmd.Get v.key
    let r := store.exec o c s
    ⟨[shape (some (Value.str r.1.text)) r.1.err], [(o, c)], r.2⟩
  else if v.action = "del" then
    let c := Cmd.Del v.key
    let r := store.exec o c s
    ⟨[shape (some (Value.int r.1.count)) r.1.err], [(o, c)], r.2⟩
  else if v.action = "exists" then
    let c := Cmd.Exists v.key
    let r := store.exec o c s
    ⟨[shape (some (Value.bool (decide (r.1.count > 0)))) r.1.err], [(o, c)], r.2⟩
  else if v.action = "keys" then
    let pattern := if v.key = "" then "*" else v.key
    let c := Cmd.Keys pattern
    let r := store.exec o c s
    ⟨[shape (some (Value.list r.1.names)) r.1.err], [(o, c)], r.2⟩
  else
    ⟨[{ Result := none, Error := "invalid action" }], [], s⟩

/-- The program.  `stdin` is the outcome of decoding standard input: the decoded
document, or the decoder's error text. -/
def main {σ : Type} (lower : Char → Char) (store : Store σ) (s : σ)
    (stdin : Except String Input) : Run σ :=
  match stdin with
  | .error e => ⟨[{ Result := none, Error := "failed to decode input: " ++ e }], [], s⟩
  | .ok input =>
    let v := extract lower input.Params
    if v.addr = "" then
      ⟨[{ Result := none, Error := "addr is required" }], [], s⟩
    else if v.key = "" ∧ v.action ≠ "keys" then
      ⟨[{ Result := none, Error := "key is required" }], [], s⟩
    else
      dispatch store { Addr := v.addr, Password := v.password, DB := v.db } v s

/-! ## A store kept as an association list -/

/-- A store whose state is a list of key-value pairs, newest first: `Set` always
succeeds and prepends (expirations are not kept), `Get` returns the newest value
or `redis.Nil`, `Del` and `Exists` count the key, and `Keys` lists every key
whatever the pattern.  It serves as the concrete store of the examples. -/
def mapStore : Store (List (String × String)) where
  exec := fun _ c s =>
    match c with
    | .Set k v _ => (⟨"OK", 0, [], none⟩, (k, v) :: s)
    | .Get k =>
      match s.lookup k with
      | some v => (⟨v, 0, [], none⟩, s)
      | none => (⟨"", 0, [], some .Nil⟩, s)
    | .Del k => (⟨"", if (s.lookup k).isSome then 1 else 0, [], none⟩, s.filter (fun e => e.1 ≠ k))
    | .Exists k => (⟨"", if (s.lookup k).isSome then 1 else 0, [], none⟩, s)
    | .Keys _ => (⟨"", 0, (s.map Prod.fst).dedup, none⟩, s)

/-- The store law of C8: when a `Set` of `v` at `k` without expiration succeeds, a
`Get` of `k` in the state it leaves succeeds with `v`. -/
def SetThenGet {σ : Type} (store : Store σ) : Prop :=
  ∀ (o : Options) (k v : String) (s : σ),
    (store.exec o (Cmd.Set k v 0) s).1.err = none →
      (store.exec o (Cmd.Get k) (store.exec o (Cmd.Set k v 0) s).2).1.err = none ∧
        (store.exec o (Cmd.Get k) (store.exec o (Cmd.Set k v 0) s).2).1.text = v

/-- A store that fails every command with the same error text (a refused
connection, say) and keeps no state. -/
def failStore (msg : String) : Store Unit where
  exec := fun _ _ s => (⟨"", 0, [], some (GoError.other msg)⟩, s)

/-- The parameters the loop stores in `value` or `expiration`. -/
def isValueOrExpiration (lower : Char → Char) (p : Param) : Bool :=
  ToLower lower p.InputName = "value" ∨ ToLower lower p.InputName = "expiration"

/-- Two states of the variables that agree on everything but `value` and
`expiration`. -/
def AgreeButValueExpiration (v w : Vars) : Prop :=
  v.addr = w.addr ∧ v.password = w.password ∧ v.db = w.db ∧ v.action = w.action ∧
    v.key = w.key

/-- A well-formed base-10 integer text: an optional sign, then one or more decimal
digits, and nothing else. -/
def isBase10 (s : String) : Bool :=
  match s.data with
  | [] => false
  | c :: cs =>
    if c = '+' ∨ c = '-' then (!cs.isEmpty && cs.all Char.isDigit)
    else (c :: cs).all Char.isDigit

/-- The integer a well-formed base-10 text denotes. -/
def base10Value (s : String) : Int :=
  match s.data with
  | [] => 0
  | c :: cs =>
    if c = '-' then -(digitsValue cs : Int)
    else if c = '+' then (digitsValue cs : Int)
    else (digitsValue (c :: cs) : Int)

/-- Two runes that are the same letter up to case: equal runes, an ASCII capital
and its small letter (either way round), or two non-ASCII runes that the case
table sends to the same rune. -/
def sameLetter (lower : Char → Char) (x y : Char) : Bool :=
  x = y ||
  (65 ≤ x.toNat && x.toNat ≤ 90 && y.toNat = x.toNat + 32) ||
  (65 ≤ y.toNat && y.toNat ≤ 90 && x.toNat = y.toNat + 32) ||
  (128 ≤ x.toNat && 128 ≤ y.toNat && lower x = lower y)

/-- Two rune sequences of the same length that agree rune by rune up to case. -/
def caseVariantRunes (lower : Char → Char) : List Char → List Char → Bool
  | [], [] => true
  | x :: xs, y :: ys => sameLetter lower x y && caseVariantRunes lower xs ys
  | _, _ => false

/-- The name `b` is a case variant of the name `a`. -/
def CaseVariant (lower : Char → Char) (a b : String) : Bool :=
  caseVariantRunes lower a.data b.data

/-- The value `w` is the value `v` with white space put before and after it. -/
def Padded (v w : String) : Prop :=
  ∃ l r : List Char, (∀ c ∈ l, isSpace c = true) ∧ (∀ c ∈ r, isSpace c = true) ∧
    w.data = l ++ v.data ++ r

/-- The parameter `q` is `p` with its name in another letter case and its value
padded with white space. -/
def Variant (lower : Char → Char) (p q : Param) : Prop :=
  CaseVariant lower p.InputName q.InputName = true ∧ Padded p.CompValue q.CompValue

/-- The parameter list with every parameter named `n` (in any letter case) left
out, except the last one of that name. -/
def dropEarlier (lower : Char → Char) (n : String) : List Param → List Param
  | [] => []
  | p :: ps =>
    if ToLower lower p.InputName = n ∧ (ps.any fun q => ToLower lower q.InputName = n) then
      dropEarlier lower n ps
    else p :: dropEarlier lower n ps

/-- Whether the loop assigns a variable on the parameter `p`: not on a blank
`action`, not on a `db` or `expiration` that does not scan. -/
def assigns (lower : Char → Char) (p : Param) : Bool :=
  if ToLower lower p.InputName = "action" then TrimSpace p.CompValue ≠ ""
  else if ToLower lower p.InputName = "db" ∨ ToLower lower p.InputName = "expiration" then
    (Sscanf (TrimSpace p.CompValue)).isSome
  else true

/-- Two states of the variables that agree on every variable but the one the
parameter name `n` is stored in. -/
def AgreeExcept (n : String) (v w : Vars) : Prop :=
  (n = "addr" ∨ v.addr = w.addr) ∧ (n = "password" ∨ v.password = w.password) ∧
    (n = "db" ∨ v.db = w.db) ∧ (n = "action" ∨ v.action = w.action) ∧
    (n = "key" ∨ v.key = w.key) ∧ (n = "value" ∨ v.value = w.value) ∧
    (n = "expiration" ∨ v.expiration = w.expiration)

/-- The integers the loop stores in `expiration`, in order: one for every
`expiration` parameter whose trimmed value scans. -/
def scannedExpirations (lower : Char → Char) (ps : List Param) : List Int :=
  ps.filterMap fun p =>
    if ToLower lower p.InputName = "expiration" then Sscanf (TrimSpace p.CompValue)
    else none

/-- The identity case table: a stand-in for the Unicode table on concrete ASCII
inputs, which never consult it. -/
def asciiOnly : Char → Char := fun c => c

/-! ## Supporting lemmas -/

/-- A decoded document runs through the parameter loop, the two checks and the
dispatcher. -/
theorem main_ok {σ : Type} (lower : Char → Char) (store : Store σ) (s : σ)
    (ps : List Param) :
    main lower store s (.ok ⟨ps⟩) =
      if (extract lower ps).addr = "" then
        ⟨[{ Result := none, Error := "addr is required" }], [], s⟩
      else if (extract lower ps).key = "" ∧ (extract lower ps).action ≠ "keys" then
        ⟨[{ Result := none, Error := "key is required" }], [], s⟩
      else
        dispatch store
          { Addr := (extract lower ps).addr, Password := (extract lower ps).password,
            DB := (extract lower ps).db } (extract lower ps) s := rfl

/-- The text of a store failure never reads "key is required". -/
theorem redis_error_ne_key_required (t : String) :
    "redis error: " ++ t ≠ "key is required" := by
  intro h
  have h2 := congrArg String.data h
  rw [String.data_append] at h2
  have h3 := congrArg List.head? h2
  simp at h3

/-- No shaped output carries the text "key is required". -/
theorem shape_error_ne_key_required (result : Option Value) (err : Option GoError) :
    (shape result err).Error ≠ "key is required" := by
  unfold shape
  split
  · show "" ≠ "key is required"
    decide
  · exact redis_error_ne_key_required _
  · show "" ≠ "key is required"
    decide

/-- The dispatcher never emits the key-validation document. -/
theorem dispatch_emitted_ne_key_required {σ : Type} (store : Store σ) (o : Options)
    (v : Vars) (s : σ) :
    (dispatch store o v s).emitted ≠ [{ Result := none, Error := "key is required" }] := by
  intro h
  unfold dispatch at h
  split_ifs at h <;> simp only [List.cons.injEq, and_true] at h <;>
    first
      | exact shape_error_ne_key_required _ _ (congrArg Output.Error h)
      | exact absurd (congrArg Output.Error h) (by decide)

/-- The parameter loop started from given variables. -/
theorem foldl_key_of_no_key_param (lower : Char → Char) (ps : List Param) (v : Vars)
    (h : ∀ p ∈ ps, ToLower lower p.InputName ≠ "key") :
    (ps.foldl (extractStep lower) v).key = v.key := by
  induction ps generalizing v with
  | nil => rfl
  | cons p ps ih =>
    have hp : ToLower lower p.InputName ≠ "key" := h p (List.mem_cons_self p ps)
    have hstep : (extractStep lower v p).key = v.key := by
      unfold extractStep
      simp only
      split_ifs <;> rfl
    rw [List.foldl_cons, ih _ (fun q hq => h q (List.mem_cons_of_mem p hq)), hstep]

/-- With no parameter named `key` (in any letter case) the key stays empty. -/
theorem extract_key_of_no_key_param (lower : Char → Char) (ps : List Param)
    (h : ∀ p ∈ ps, ToLower lower p.InputName ≠ "key") :
    (extract lower ps).key = "" :=
  foldl_key_of_no_key_param lower ps Vars.init h

/-! ## Validation -/

/-- C1: when the address left by the parameter loop is empty, the run writes the
single document with error "addr is required" and a null result, whatever the other
parameters are, and makes no client call (the store is left as it was). -/
theorem C1_addr_required {σ : Type} (lower : Char → Char) (store : Store σ) (s : σ)
    (ps : List Param) (h : (extract lower ps).addr = "") :
    main lower store s (.ok ⟨ps⟩) =
      ⟨[{ Result := none, Error := "addr is required" }], [], s⟩ := by
  rw [main_ok, if_pos h]

/-- C1 at a document with a blank address and every other parameter set. -/
theorem C1_addr_required_witness :
    (extract asciiOnly
        [⟨"addr", "  "⟩, ⟨"action", "set"⟩, ⟨"key", "k"⟩, ⟨"value", "v"⟩, ⟨"db", "3"⟩,
          ⟨"expiration", "60"⟩]).addr = "" ∧
      main asciiOnly mapStore []
          (.ok ⟨[⟨"addr", "  "⟩, ⟨"action", "set"⟩, ⟨"key", "k"⟩, ⟨"value", "v"⟩,
            ⟨"db", "3"⟩, ⟨"expiration", "60"⟩]⟩) =
        ⟨[{ Result := none, Error := "addr is required" }], [], []⟩ :=
  ⟨by decide, C1_addr_required asciiOnly mapStore [] _ (by decide)⟩

/-- C2, as stated, fails: the action "list-keys" is not exempt from the key check,
so with a non-empty address and no key the run stops with "key is required" and
no client call; and the action "keys", which is not "list-keys", passes the check
without a key and lists the keys. -/
theorem C2_list_keys_counterexample :
    (extract asciiOnly [⟨"addr", "h:6379"⟩, ⟨"action", "list-keys"⟩]).addr ≠ "" ∧
      (extract asciiOnly [⟨"addr", "h:6379"⟩, ⟨"action", "list-keys"⟩]).key = "" ∧
      (extract asciiOnly [⟨"addr", "h:6379"⟩, ⟨"action", "list-keys"⟩]).action =
        "list-keys" ∧
      (main asciiOnly mapStore []
          (.ok ⟨[⟨"addr", "h:6379"⟩, ⟨"action", "list-keys"⟩]⟩)).emitted =
        [{ Result := none, Error := "key is required" }] ∧
      (main asciiOnly mapStore []
          (.ok ⟨[⟨"addr", "h:6379"⟩, ⟨"action", "list-keys"⟩]⟩)).calls = [] ∧
      (extract asciiOnly [⟨"addr", "h:6379"⟩, ⟨"action", "keys"⟩]).key = "" ∧
      (extract asciiOnly [⟨"addr", "h:6379"⟩, ⟨"action", "keys"⟩]).action ≠ "list-keys" ∧
      (main asciiOnly mapStore []
          (.ok ⟨[⟨"addr", "h:6379"⟩, ⟨"action", "keys"⟩]⟩)).emitted =
        [{ Result := some (Value.list []), Error := "" }] := by
  decide

/-- C2, amended: the address check comes first (an empty address gives "addr is
required" even when the key is empty too); with a non-empty address the run stops
with the document "key is required" and no client call exactly when the key is
empty and the action is not `keys`, the text by which the code knows the
key-listing action. -/
theorem C2_key_required_iff {σ : Type} (lower : Char → Char) (store : Store σ) (s : σ)
    (ps : List Param) :
    ((extract lower ps).addr = "" →
      (main lower store s (.ok ⟨ps⟩)).emitted =
        [{ Result := none, Error := "addr is required" }]) ∧
    ((extract lower ps).addr ≠ "" →
      (((main lower store s (.ok ⟨ps⟩)).emitted =
            [{ Result := none, Error := "key is required" }] ∧
          (main lower store s (.ok ⟨ps⟩)).calls = []) ↔
        ((extract lower ps).key = "" ∧ (extract lower ps).action ≠ "keys"))) := by
  refine ⟨fun h => by rw [main_ok, if_pos h], fun h => ?_⟩
  rw [main_ok, if_neg h]
  by_cases hk : (extract lower ps).key = "" ∧ (extract lower ps).action ≠ "keys"
  · rw [if_pos hk]
    exact ⟨fun _ => hk, fun _ => ⟨rfl, rfl⟩⟩
  · rw [if_neg hk]
    exact ⟨fun hd => absurd hd.1 (dispatch_emitted_ne_key_required _ _ _ _),
      fun hd => absurd hd hk⟩

/-! ## The five actions -/

/-- C3: with non-empty address and key and action `get`, the run makes the one
call `Get key`; when the client reports `redis.Nil` the document has a null result
and an empty error, and when it returns a value with no error the document has
that value as result and an empty error. -/
theorem C3_get {σ : Type} (lower : Char → Char) (store : Store σ) (s : σ)
    (ps : List Param) (ha : (extract lower ps).addr ≠ "")
    (hk : (extract lower ps).key ≠ "") (hact : (extract lower ps).action = "get") :
    (main lower store s (.ok ⟨ps⟩)).calls =
        [(⟨(extract lower ps).addr, (extract lower ps).password, (extract lower ps).db⟩,
          Cmd.Get (extract lower ps).key)] ∧
      ((store.exec ⟨(extract lower ps).addr, (extract lower ps).password,
            (extract lower ps).db⟩ (Cmd.Get (extract lower ps).key) s).1.err = some .Nil →
        (main lower store s (.ok ⟨ps⟩)).emitted = [{ Result := none, Error := "" }]) ∧
      ((store.exec ⟨(extract lower ps).addr, (extract lower ps).password,
            (extract lower ps).db⟩ (Cmd.Get (extract lower ps).key) s).1.err = none →
        (main lower store s (.ok ⟨ps⟩)).emitted =
          [{ Result := some (Value.str (store.exec ⟨(extract lower ps).addr,
              (extract lower ps).password, (extract lower ps).db⟩
              (Cmd.Get (extract lower ps).key) s).1.text), Error := "" }]) := by
  rw [main_ok, if_neg ha, if_neg (fun h => hk h.1)]
  simp only [dispatch, hact]
  refine ⟨by simp, fun h => ?_, fun h => ?_⟩ <;> simp [h, shape]

/-- C3 at a `get` of a key the store holds. -/
theorem C3_get_witness :
    (extract asciiOnly [⟨"addr", "h:6379"⟩, ⟨"action", "get"⟩, ⟨"key", "k"⟩]).addr ≠ "" ∧
      (extract asciiOnly [⟨"addr", "h:6379"⟩, ⟨"action", "get"⟩, ⟨"key", "k"⟩]).key ≠ "" ∧
      (extract asciiOnly [⟨"addr", "h:6379"⟩, ⟨"action", "get"⟩, ⟨"key", "k"⟩]).action = "get" ∧
      (main asciiOnly mapStore [("k", "v")]
          (.ok ⟨[⟨"addr", "h:6379"⟩, ⟨"action", "get"⟩, ⟨"key", "k"⟩]⟩)).emitted =
        [{ Result := some (Value.str "v"), Error := "" }] :=
  ⟨by decide, by decide, by decide,
    (C3_get asciiOnly mapStore [("k", "v")]
      [⟨"addr", "h:6379"⟩, ⟨"action", "get"⟩, ⟨"key", "k"⟩]
      (by decide) (by decide) (by decide)).2.2 (by decide)⟩

/-- C4: with non-empty address and key and action `exists`, the run makes the one
call `Exists key`; when it succeeds with count `n` the result is the boolean `true`
for `n > 0` and the boolean `false` otherwise, with an empty error. -/
theorem C4_exists {σ : Type} (lower : Char → Char) (store : Store σ) (s : σ)
    (ps : List Param) (ha : (extract lower ps).addr ≠ "")
    (hk : (extract lower ps).key ≠ "") (hact : (extract lower ps).action = "exists")
    (hok : (store.exec ⟨(extract lower ps).addr, (extract lower ps).password,
      (extract lower ps).db⟩ (Cmd.Exists (extract lower ps).key) s).1.err = none) :
    (main lower store s (.ok ⟨ps⟩)).calls =
        [(⟨(extract lower ps).addr, (extract lower ps).password, (extract lower ps).db⟩,
          Cmd.Exists (extract lower ps).key)] ∧
      (0 < (store.exec ⟨(extract lower ps).addr, (extract lower ps).password,
            (extract lower ps).db⟩ (Cmd.Exists (extract lower ps).key) s).1.count →
        (main lower store s (.ok ⟨ps⟩)).emitted =
          [{ Result := some (Value.bool true), Error := "" }]) ∧
      ((store.exec ⟨(extract lower ps).addr, (extract lower ps).password,
            (extract lower ps).db⟩ (Cmd.Exists (extract lower ps).key) s).1.count ≤ 0 →
        (main lower store s (.ok ⟨ps⟩)).emitted =
          [{ Result := some (Value.bool false), Error := "" }]) := by
  rw [main_ok, if_neg ha, if_neg (fun h => hk h.1)]
  simp only [dispatch, hact]
  refine ⟨by simp, fun h => ?_, fun h => ?_⟩
  · simp [hok, shape, h]
  · simp [hok, shape, Int.not_lt.mpr h]

/-- C4 at an `exists` of a key the store holds. -/
theorem C4_exists_witness :
    (extract asciiOnly [⟨"addr", "h:6379"⟩, ⟨"action", "Exists"⟩, ⟨"key", "k"⟩]).addr ≠ "" ∧
      (extract asciiOnly [⟨"addr", "h:6379"⟩, ⟨"action", "Exists"⟩, ⟨"key", "k"⟩]).key ≠ "" ∧
      (extract asciiOnly [⟨"addr", "h:6379"⟩, ⟨"action", "Exists"⟩, ⟨"key", "k"⟩]).action =
        "exists" ∧
      (main asciiOnly mapStore [("k", "v")]
          (.ok ⟨[⟨"addr", "h:6379"⟩, ⟨"action", "Exists"⟩, ⟨"key", "k"⟩]⟩)).emitted =
        [{ Result := some (Value.bool true), Error := "" }] :=
  ⟨by decide, by decide, by decide,
    (C4_exists asciiOnly mapStore [("k", "v")]
      [⟨"addr", "h:6379"⟩, ⟨"action", "Exists"⟩, ⟨"key", "k"⟩]
      (by decide) (by decide) (by decide) (by decide)).2.1 (by decide)⟩

/-- C5, as stated, fails: the action text "delete" is not one the dispatcher knows,
so on a store without the key the run writes "invalid action" and calls nothing. -/
theorem C5_delete_counterexample :
    (main asciiOnly mapStore []
          (.ok ⟨[⟨"addr", "h:6379"⟩, ⟨"action", "delete"⟩, ⟨"key", "k"⟩]⟩)).emitted =
        [{ Result := none, Error := "invalid action" }] ∧
      (main asciiOnly mapStore []
          (.ok ⟨[⟨"addr", "h:6379"⟩, ⟨"action", "delete"⟩, ⟨"key", "k"⟩]⟩)).calls = [] := by
  decide

/-- C5, amended: with non-empty address and key and action `del`, the run makes the
one call `Del key`, and when it succeeds the result is the integer count the
client reports, with an empty error; for a count of zero the result is `0`. -/
theorem C5_del {σ : Type} (lower : Char → Char) (store : Store σ) (s : σ)
    (ps : List Param) (ha : (extract lower ps).addr ≠ "")
    (hk : (extract lower ps).key ≠ "") (hact : (extract lower ps).action = "del")
    (hok : (store.exec ⟨(extract lower ps).addr, (extract lower ps).password,
      (extract lower ps).db⟩ (Cmd.Del (extract lower ps).key) s).1.err = none) :
    (main lower store s (.ok ⟨ps⟩)).calls =
        [(⟨(extract lower ps).addr, (extract lower ps).password, (extract lower ps).db⟩,
          Cmd.Del (extract lower ps).key)] ∧
      (main lower store s (.ok ⟨ps⟩)).emitted =
        [{ Result := some (Value.int (store.exec ⟨(extract lower ps).addr,
            (extract lower ps).password, (extract lower ps).db⟩
            (Cmd.Del (extract lower ps).key) s).1.count), Error := "" }] ∧
      ((store.exec ⟨(extract lower ps).addr, (extract lower ps).password,
            (extract lower ps).db⟩ (Cmd.Del (extract lower ps).key) s).1.count = 0 →
        (main lower store s (.ok ⟨ps⟩)).emitted =
          [{ Result := some (Value.int 0), Error := "" }]) := by
  rw [main_ok, if_neg ha, if_neg (fun h => hk h.1)]
  simp only [dispatch, hact]
  refine ⟨by simp, by simp [hok, shape], fun h => ?_⟩
  simp [hok, shape, h]

/-- C5, amended, at a `del` of a key the store does not hold. -/
theorem C5_del_witness :
    (extract asciiOnly [⟨"addr", "h:6379"⟩, ⟨"action", "del"⟩, ⟨"key", "k"⟩]).addr ≠ "" ∧
      (extract asciiOnly [⟨"addr", "h:6379"⟩, ⟨"action", "del"⟩, ⟨"key", "k"⟩]).key ≠ "" ∧
      (extract asciiOnly [⟨"addr", "h:6379"⟩, ⟨"action", "del"⟩, ⟨"key", "k"⟩]).action = "del" ∧
      (main asciiOnly mapStore []
          (.ok ⟨[⟨"addr", "h:6379"⟩, ⟨"action", "del"⟩, ⟨"key", "k"⟩]⟩)).emitted =
        [{ Result := some (Value.int 0), Error := "" }] :=
  ⟨by decide, by decide, by decide,
    (C5_del asciiOnly mapStore []
      [⟨"addr", "h:6379"⟩, ⟨"action", "del"⟩, ⟨"key", "k"⟩]
      (by decide) (by decide) (by decide) (by decide)).2.2 (by decide)⟩

/-- C6, as stated, fails: the action text "LIST-KEYS" folds to "list-keys", which
is not the `keys` the key check exempts, so without a key the run stops with
"key is required" and calls nothing. -/
theorem C6_list_keys_counterexample :
    (main asciiOnly mapStore [("k", "v")]
          (.ok ⟨[⟨"addr", "h:6379"⟩, ⟨"action", "LIST-KEYS"⟩]⟩)).emitted =
        [{ Result := none, Error := "key is required" }] ∧
      (main asciiOnly mapStore [("k", "v")]
          (.ok ⟨[⟨"addr", "h:6379"⟩, ⟨"action", "LIST-KEYS"⟩]⟩)).calls = [] := by
  decide

/-- C6, amended: with a non-empty address, no parameter named `key`, and an action
that folds to `keys` (the text "KEYS" in any letter case), validation passes, the
one call is `Keys "*"`, and when it succeeds the result is the list the client
returned, with an empty error. -/
theorem C6_keys_without_key {σ : Type} (lower : Char → Char) (store : Store σ) (s : σ)
    (ps : List Param) (ha : (extract lower ps).addr ≠ "")
    (hnokey : ∀ p ∈ ps, ToLower lower p.InputName ≠ "key")
    (hact : (extract lower ps).action = "keys")
    (hok : (store.exec ⟨(extract lower ps).addr, (extract lower ps).password,
      (extract lower ps).db⟩ (Cmd.Keys "*") s).1.err = none) :
    (main lower store s (.ok ⟨ps⟩)).calls =
        [(⟨(extract lower ps).addr, (extract lower ps).password, (extract lower ps).db⟩,
          Cmd.Keys "*")] ∧
      (main lower store s (.ok ⟨ps⟩)).emitted =
        [{ Result := some (Value.list (store.exec ⟨(extract lower ps).addr,
            (extract lower ps).password, (extract lower ps).db⟩
            (Cmd.Keys "*") s).1.names), Error := "" }] := by
  have hkey : (extract lower ps).key = "" := extract_key_of_no_key_param lower ps hnokey
  have hval : ¬((extract lower ps).key = "" ∧ (extract lower ps).action ≠ "keys") :=
    fun h => h.2 hact
  rw [main_ok, if_neg ha, if_neg hval]
  simp only [dispatch, hact]
  simp [hok, shape, hkey]

/-- C6, amended, at the action text "KeYs" with no key, on a store of two keys and
on an empty store. -/
theorem C6_keys_without_key_witness :
    (extract asciiOnly [⟨"addr", "h:6379"⟩, ⟨"Action", " KeYs "⟩]).addr ≠ "" ∧
      (∀ p ∈ [(⟨"addr", "h:6379"⟩ : Param), ⟨"Action", " KeYs "⟩],
        ToLower asciiOnly p.InputName ≠ "key") ∧
      (extract asciiOnly [⟨"addr", "h:6379"⟩, ⟨"Action", " KeYs "⟩]).action = "keys" ∧
      (main asciiOnly mapStore [("b", "1"), ("a", "2")]
          (.ok ⟨[⟨"addr", "h:6379"⟩, ⟨"Action", " KeYs "⟩]⟩)).emitted =
        [{ Result := some (Value.list ["b", "a"]), Error := "" }] :=
  ⟨by decide, by decide, by decide,
    (C6_keys_without_key asciiOnly mapStore [("b", "1"), ("a", "2")]
      [⟨"addr", "h:6379"⟩, ⟨"Action", " KeYs "⟩]
      (by decide) (by decide) (by decide) (by decide)).2⟩

/-- Within about 292 years the product `time.Duration(expiration)*time.Second` does
not wrap. -/
theorem Duration_of_range (e : Int) (hlo : -9223372036 ≤ e) (hhi : e ≤ 9223372036) :
    Duration e = e * Second := by
  unfold Duration wrapInt64 Second
  omega

/-- With non-empty address and key and action `set`, the one call is `Set` of the
trimmed value at the key with the duration computed from `expiration`, and when it
succeeds the document is the text "OK" with an empty error. -/
theorem set_call {σ : Type} (lower : Char → Char) (store : Store σ) (s : σ)
    (ps : List Param) (ha : (extract lower ps).addr ≠ "")
    (hk : (extract lower ps).key ≠ "") (hact : (extract lower ps).action = "set") :
    (main lower store s (.ok ⟨ps⟩)).calls =
        [(⟨(extract lower ps).addr, (extract lower ps).password, (extract lower ps).db⟩,
          Cmd.Set (extract lower ps).key (extract lower ps).value
            (Duration (extract lower ps).expiration))] ∧
      ((store.exec ⟨(extract lower ps).addr, (extract lower ps).password,
            (extract lower ps).db⟩
          (Cmd.Set (extract lower ps).key (extract lower ps).value
            (Duration (extract lower ps).expiration)) s).1.err = none →
        (main lower store s (.ok ⟨ps⟩)).emitted =
          [{ Result := some (Value.str "OK"), Error := "" }]) := by
  rw [main_ok, if_neg ha, if_neg (fun h => hk h.1)]
  simp only [dispatch, hact]
  refine ⟨by simp, fun h => ?_⟩
  simp [h, shape]

/-- C7 fails on the code for a large expiration: for `expiration = "10000000000"`
the scan stores 10000000000, the product with `time.Second` wraps in `int64`, and
the duration handed to `Set` is -8446744073709551616 ns, not 10000000000 s. -/
theorem C7_set_ttl_overflow :
    (extract asciiOnly
        [⟨"addr", "h:6379"⟩, ⟨"action", "set"⟩, ⟨"key", "k"⟩, ⟨"value", "v"⟩,
          ⟨"expiration", "10000000000"⟩]).expiration = 10000000000 ∧
      (main asciiOnly mapStore []
          (.ok ⟨[⟨"addr", "h:6379"⟩, ⟨"action", "set"⟩, ⟨"key", "k"⟩, ⟨"value", "v"⟩,
            ⟨"expiration", "10000000000"⟩]⟩)).calls =
        [(⟨"h:6379", "", 0⟩, Cmd.Set "k" "v" (-8446744073709551616))] ∧
      (-8446744073709551616 : Int) ≠ 10000000000 * Second := by
  decide

/-! ## Set followed by get -/

/-- The association-list store obeys the law. -/
theorem mapStore_setThenGet : SetThenGet mapStore := by
  intro o k v s _
  simp [mapStore, List.lookup]

/-- The variables after the `set` request of C8. -/
theorem extract_set_request (lower : Char → Char) (a k v : String) :
    extract lower [⟨"addr", a⟩, ⟨"action", "set"⟩, ⟨"key", k⟩, ⟨"value", v⟩,
        ⟨"expiration", "0"⟩] =
      { addr := TrimSpace a, password := "", db := 0, action := "set", key := TrimSpace k,
        value := TrimSpace v, expiration := 0 } := by
  have h1 : ToLower lower "addr" = "addr" := rfl
  have h2 : ToLower lower "action" = "action" := rfl
  have h3 : ToLower lower "key" = "key" := rfl
  have h4 : ToLower lower "value" = "value" := rfl
  have h5 : ToLower lower "expiration" = "expiration" := rfl
  have h6 : TrimSpace "set" = "set" := by decide
  have h7 : ToLower lower "set" = "set" := rfl
  have h8 : Sscanf (TrimSpace "0") = some 0 := by decide
  simp [extract, extractStep, h1, h2, h3, h4, h5, h6, h7, h8, Vars.init]

/-- The variables after the `get` request of C8. -/
theorem extract_get_request (lower : Char → Char) (a k : String) :
    extract lower [⟨"addr", a⟩, ⟨"action", "get"⟩, ⟨"key", k⟩] =
      { addr := TrimSpace a, password := "", db := 0, action := "get", key := TrimSpace k,
        value := "", expiration := 0 } := by
  have h1 : ToLower lower "addr" = "addr" := rfl
  have h2 : ToLower lower "action" = "action" := rfl
  have h3 : ToLower lower "key" = "key" := rfl
  have h6 : TrimSpace "get" = "get" := by decide
  have h7 : ToLower lower "get" = "get" := rfl
  simp [extract, extractStep, h1, h2, h3, h6, h7, Vars.init]

/-- C8: over a store obeying `SetThenGet`, for an address and a key that are not
blank and a value `v` without surrounding white space, the run of
`{addr, action: set, key: k, value: v, expiration: "0"}` whose `Set` succeeds
writes "OK", and the following run of `{addr, action: get, key: k}` on the store
it leaves writes result `v` with an empty error. -/
theorem C8_set_then_get {σ : Type} (lower : Char → Char) (store : Store σ) (s : σ)
    (a k v : String) (ha : TrimSpace a ≠ "") (hk : TrimSpace k ≠ "")
    (hv : TrimSpace v = v) (hlaw : SetThenGet store)
    (hset : (store.exec ⟨TrimSpace a, "", 0⟩ (Cmd.Set (TrimSpace k) v 0) s).1.err = none) :
    (main lower store s
          (.ok ⟨[⟨"addr", a⟩, ⟨"action", "set"⟩, ⟨"key", k⟩, ⟨"value", v⟩,
            ⟨"expiration", "0"⟩]⟩)).emitted =
        [{ Result := some (Value.str "OK"), Error := "" }] ∧
      (main lower store
          (main lower store s
            (.ok ⟨[⟨"addr", a⟩, ⟨"action", "set"⟩, ⟨"key", k⟩, ⟨"value", v⟩,
              ⟨"expiration", "0"⟩]⟩)).store
          (.ok ⟨[⟨"addr", a⟩, ⟨"action", "get"⟩, ⟨"key", k⟩]⟩)).emitted =
        [{ Result := some (Value.str v), Error := "" }] := by
  have hd : Duration 0 = 0 := by decide
  have hget := hlaw ⟨TrimSpace a, "", 0⟩ (TrimSpace k) v s hset
  rw [main_ok, main_ok, extract_set_request, extract_get_request]
  simp only [if_neg ha, if_neg (fun h : TrimSpace k = "" ∧ _ => hk h.1), hv]
  simp only [dispatch, hd]
  simp [hset, hget.1, hget.2, shape]

/-- C8 on the association-list store: set `k` to "v w", then get `k`. -/
theorem C8_set_then_get_witness :
    TrimSpace "h:6379" ≠ "" ∧ TrimSpace "k" ≠ "" ∧ TrimSpace "v w" = "v w" ∧
      (main asciiOnly mapStore
          (main asciiOnly mapStore []
            (.ok ⟨[⟨"addr", "h:6379"⟩, ⟨"action", "set"⟩, ⟨"key", "k"⟩, ⟨"value", "v w"⟩,
              ⟨"expiration", "0"⟩]⟩)).store
          (.ok ⟨[⟨"addr", "h:6379"⟩, ⟨"action", "get"⟩, ⟨"key", "k"⟩]⟩)).emitted =
        [{ Result := some (Value.str "v w"), Error := "" }] :=
  ⟨by decide, by decide, by decide,
    (C8_set_then_get asciiOnly mapStore [] "h:6379" "k" "v w" (by decide) (by decide)
      (by decide) mapStore_setThenGet (by decide)).2⟩

/-! ## One document, never result and error together -/

/-- A shaped document has a null result or an empty error. -/
theorem shape_exclusive (result : Option Value) (err : Option GoError) :
    (shape result err).Result = none ∨ (shape result err).Error = "" := by
  unfold shape
  split
  · exact Or.inl rfl
  · exact Or.inl rfl
  · exact Or.inr rfl

/-- The dispatcher writes one document, with a null result or an empty error. -/
theorem dispatch_one_exclusive {σ : Type} (store : Store σ) (o : Options) (v : Vars)
    (s : σ) :
    ∃ out : Output, (dispatch store o v s).emitted = [out] ∧
      (out.Result = none ∨ out.Error = "") := by
  unfold dispatch
  split_ifs <;>
    first
      | exact ⟨_, rfl, shape_exclusive _ _⟩
      | exact ⟨_, rfl, Or.inl rfl⟩

/-- C9: for every outcome of decoding and every store, the run writes exactly one
document, and that document does not have both a non-null result and a non-empty
error. -/
theorem C9_one_envelope_exclusive {σ : Type} (lower : Char → Char) (store : Store σ)
    (s : σ) (stdin : Except String Input) :
    ∃ out : Output, (main lower store s stdin).emitted = [out] ∧
      ¬(out.Result ≠ none ∧ out.Error ≠ "") := by
  have key : ∃ out : Output, (main lower store s stdin).emitted = [out] ∧
      (out.Result = none ∨ out.Error = "") := by
    cases stdin with
    | error e => exact ⟨_, rfl, Or.inl rfl⟩
    | ok input =>
      cases input with
      | mk ps =>
        rw [main_ok]
        split_ifs
        · exact ⟨_, rfl, Or.inl rfl⟩
        · exact ⟨_, rfl, Or.inl rfl⟩
        · exact dispatch_one_exclusive _ _ _ _
  obtain ⟨out, h1, h2⟩ := key
  refine ⟨out, h1, fun h => ?_⟩
  cases h2 with
  | inl hr => exact h.1 hr
  | inr he => exact h.2 he

/-- A failed `Del` or `Exists` writes only the error: the count or boolean computed
beside it is dropped. -/
theorem shape_failure (result : Option Value) (msg : String) :
    shape result (some (GoError.other msg)) =
      { Result := none, Error := "redis error: " ++ msg } := rfl

/-! ## Unknown actions -/

/-- C10, as stated, fails: the action "del" is none of the five actions the
specification names (get, set, delete, exists, list-keys), yet with a non-empty
address and key the run calls `Del` and writes the count, not "invalid action". -/
theorem C10_del_counterexample :
    (extract asciiOnly [⟨"addr", "h:6379"⟩, ⟨"action", "del"⟩, ⟨"key", "k"⟩]).addr ≠ "" ∧
      (extract asciiOnly [⟨"addr", "h:6379"⟩, ⟨"action", "del"⟩, ⟨"key", "k"⟩]).key ≠ "" ∧
      (extract asciiOnly [⟨"addr", "h:6379"⟩, ⟨"action", "del"⟩, ⟨"key", "k"⟩]).action ∉
        ["get", "set", "delete", "exists", "list-keys"] ∧
      (main asciiOnly mapStore [("k", "v")]
          (.ok ⟨[⟨"addr", "h:6379"⟩, ⟨"action", "del"⟩, ⟨"key", "k"⟩]⟩)).emitted =
        [{ Result := some (Value.int 1), Error := "" }] ∧
      (main asciiOnly mapStore [("k", "v")]
          (.ok ⟨[⟨"addr", "h:6379"⟩, ⟨"action", "del"⟩, ⟨"key", "k"⟩]⟩)).calls =
        [(⟨"h:6379", "", 0⟩, Cmd.Del "k")] := by
  decide

/-- C10, amended: with non-empty address and key and an action that is none of
`set`, `get`, `del`, `exists`, `keys` (the five cases of the dispatcher), the run
writes the single document with error "invalid action" and a null result, and
makes no client call. -/
theorem C10_invalid_action {σ : Type} (lower : Char → Char) (store : Store σ) (s : σ)
    (ps : List Param) (ha : (extract lower ps).addr ≠ "")
    (hk : (extract lower ps).key ≠ "")
    (hact : (extract lower ps).action ∉ ["set", "get", "del", "exists", "keys"]) :
    main lower store s (.ok ⟨ps⟩) =
      ⟨[{ Result := none, Error := "invalid action" }], [], s⟩ := by
  simp only [List.mem_cons, List.mem_singleton, List.not_mem_nil, or_false, not_or] at hact
  obtain ⟨h1, h2, h3, h4, h5⟩ := hact
  rw [main_ok, if_neg ha, if_neg (fun h => hk h.1)]
  unfold dispatch
  rw [if_neg h1, if_neg h2, if_neg h3, if_neg h4, if_neg h5]

/-- C10 at the action text "Incr". -/
theorem C10_invalid_action_witness :
    (extract asciiOnly [⟨"addr", "h:6379"⟩, ⟨"action", "Incr"⟩, ⟨"key", "k"⟩]).addr ≠ "" ∧
      (extract asciiOnly [⟨"addr", "h:6379"⟩, ⟨"action", "Incr"⟩, ⟨"key", "k"⟩]).key ≠ "" ∧
      (extract asciiOnly [⟨"addr", "h:6379"⟩, ⟨"action", "Incr"⟩, ⟨"key", "k"⟩]).action ∉
        ["set", "get", "del", "exists", "keys"] ∧
      (main asciiOnly mapStore [("k", "v")]
          (.ok ⟨[⟨"addr", "h:6379"⟩, ⟨"action", "Incr"⟩, ⟨"key", "k"⟩]⟩)).emitted =
        [{ Result := none, Error := "invalid action" }] :=
  ⟨by decide, by decide, by decide,
    congrArg Run.emitted
      (C10_invalid_action asciiOnly mapStore [("k", "v")]
        [⟨"addr", "h:6379"⟩, ⟨"action", "Incr"⟩, ⟨"key", "k"⟩]
        (by decide) (by decide) (by decide))⟩

/-! ## Store failures -/

/-- The text of a store failure is never empty. -/
theorem redis_error_ne_empty (t : String) : "redis error: " ++ t ≠ "" := by
  intro h
  have h2 := congrArg String.data h
  rw [String.data_append] at h2
  have h3 := congrArg List.head? h2
  simp at h3

/-- Shaping of an error: the result is dropped, the error text is empty exactly
for `redis.Nil`, and any other error is reported with its message. -/
theorem shape_of_error (result : Option Value) (e : GoError) :
    (shape result (some e)).Result = none ∧
      ((shape result (some e)).Error = "" ↔ e = GoError.Nil) ∧
      (∀ msg, e = GoError.other msg →
        (shape result (some e)).Error = "redis error: " ++ msg ∧
          (shape result (some e)).Error ≠ "") := by
  cases e with
  | Nil => exact ⟨rfl, ⟨fun _ => rfl, fun _ => rfl⟩, fun msg h => by cases h⟩
  | other m =>
    refine ⟨rfl, ⟨fun h => absurd h (redis_error_ne_empty m), fun h => by cases h⟩, ?_⟩
    intro msg h
    cases h
    exact ⟨rfl, redis_error_ne_empty m⟩

/-- C11: a request that passes validation with one of the five actions makes one
client call; when that call returns an error, the single document has a null
result, its error is empty only for `redis.Nil`, and for any other error it is
the non-empty text "redis error: " followed by the message of the error. -/
theorem C11_store_failure {σ : Type} (lower : Char → Char) (store : Store σ) (s : σ)
    (ps : List Param) (ha : (extract lower ps).addr ≠ "")
    (hv : ¬((extract lower ps).key = "" ∧ (extract lower ps).action ≠ "keys"))
    (hact : (extract lower ps).action ∈ ["set", "get", "del", "exists", "keys"]) :
    ∃ c : Cmd,
      (main lower store s (.ok ⟨ps⟩)).calls =
          [(⟨(extract lower ps).addr, (extract lower ps).password,
            (extract lower ps).db⟩, c)] ∧
        ∀ e : GoError,
          (store.exec ⟨(extract lower ps).addr, (extract lower ps).password,
              (extract lower ps).db⟩ c s).1.err = some e →
            ∃ out : Output, (main lower store s (.ok ⟨ps⟩)).emitted = [out] ∧
              out.Result = none ∧ (out.Error = "" ↔ e = GoError.Nil) ∧
              (∀ msg, e = GoError.other msg →
                out.Error = "redis error: " ++ msg ∧ out.Error ≠ "") := by
  rw [main_ok, if_neg ha, if_neg hv]
  simp only [List.mem_cons, List.mem_singleton, List.not_mem_nil, or_false] at hact
  rcases hact with h | h | h | h | h <;> simp only [dispatch, h] <;>
    refine ⟨_, by simp; rfl, fun e he => ?_⟩ <;>
    simp only [he] <;>
    exact ⟨_, by simp; rfl, shape_of_error _ e⟩

/-- C11 at a `del` against a store that refuses every command. -/
theorem C11_store_failure_witness :
    (extract asciiOnly [⟨"addr", "h:6379"⟩, ⟨"action", "del"⟩, ⟨"key", "k"⟩]).addr ≠ "" ∧
      ¬((extract asciiOnly [⟨"addr", "h:6379"⟩, ⟨"action", "del"⟩, ⟨"key", "k"⟩]).key = "" ∧
        (extract asciiOnly [⟨"addr", "h:6379"⟩, ⟨"action", "del"⟩, ⟨"key", "k"⟩]).action ≠
          "keys") ∧
      (extract asciiOnly [⟨"addr", "h:6379"⟩, ⟨"action", "del"⟩, ⟨"key", "k"⟩]).action ∈
        ["set", "get", "del", "exists", "keys"] ∧
      (main asciiOnly (failStore "dial tcp: connection refused") ()
          (.ok ⟨[⟨"addr", "h:6379"⟩, ⟨"action", "del"⟩, ⟨"key", "k"⟩]⟩)).emitted =
        [{ Result := none, Error := "redis error: dial tcp: connection refused" }] ∧
      ∃ c : Cmd,
        (main asciiOnly (failStore "dial tcp: connection refused") ()
          (.ok ⟨[⟨"addr", "h:6379"⟩, ⟨"action", "del"⟩, ⟨"key", "k"⟩]⟩)).calls =
            [(⟨"h:6379", "", 0⟩, c)] :=
  ⟨by decide, by decide, by decide, by decide,
    (C11_store_failure asciiOnly (failStore "dial tcp: connection refused") ()
      [⟨"addr", "h:6379"⟩, ⟨"action", "del"⟩, ⟨"key", "k"⟩]
      (by decide) (by decide) (by decide)).imp (fun _ h => h.1)⟩

/-! ## Listing keys -/

/-- C19: with a non-empty address and action `keys`, the one call is `Keys` with
the key as pattern when the key is non-empty and with "*" when it is empty, and
when the call succeeds the result is the list the client returned, as returned. -/
theorem C19_keys_pattern {σ : Type} (lower : Char → Char) (store : Store σ) (s : σ)
    (ps : List Param) (ha : (extract lower ps).addr ≠ "")
    (hact : (extract lower ps).action = "keys") :
    ((extract lower ps).key ≠ "" →
        (main lower store s (.ok ⟨ps⟩)).calls =
          [(⟨(extract lower ps).addr, (extract lower ps).password, (extract lower ps).db⟩,
            Cmd.Keys (extract lower ps).key)]) ∧
      ((extract lower ps).key = "" →
        (main lower store s (.ok ⟨ps⟩)).calls =
          [(⟨(extract lower ps).addr, (extract lower ps).password, (extract lower ps).db⟩,
            Cmd.Keys "*")]) ∧
      ∀ pattern : String,
        pattern = (if (extract lower ps).key = "" then "*" else (extract lower ps).key) →
        (store.exec ⟨(extract lower ps).addr, (extract lower ps).password,
            (extract lower ps).db⟩ (Cmd.Keys pattern) s).1.err = none →
          (main lower store s (.ok ⟨ps⟩)).emitted =
            [{ Result := some (Value.list (store.exec ⟨(extract lower ps).addr,
                (extract lower ps).password, (extract lower ps).db⟩
                (Cmd.Keys pattern) s).1.names), Error := "" }] := by
  have hval : ¬((extract lower ps).key = "" ∧ (extract lower ps).action ≠ "keys") :=
    fun h => h.2 hact
  rw [main_ok, if_neg ha, if_neg hval]
  simp only [dispatch, hact]
  refine ⟨fun hk => by simp [hk], fun hk => by simp [hk], fun pattern hp hok => ?_⟩
  subst hp
  simp [hok, shape]

/-- C19 at the pattern "user:*" on a store of two keys. -/
theorem C19_keys_pattern_witness :
    (extract asciiOnly [⟨"addr", "h:6379"⟩, ⟨"action", "keys"⟩, ⟨"key", "user:*"⟩]).addr ≠ "" ∧
      (extract asciiOnly [⟨"addr", "h:6379"⟩, ⟨"action", "keys"⟩, ⟨"key", "user:*"⟩]).action =
        "keys" ∧
      (main asciiOnly mapStore [("user:2", "b"), ("user:1", "a")]
          (.ok ⟨[⟨"addr", "h:6379"⟩, ⟨"action", "keys"⟩, ⟨"key", "user:*"⟩]⟩)).calls =
        [(⟨"h:6379", "", 0⟩, Cmd.Keys "user:*")] ∧
      (main asciiOnly mapStore [("user:2", "b"), ("user:1", "a")]
          (.ok ⟨[⟨"addr", "h:6379"⟩, ⟨"action", "keys"⟩, ⟨"key", "user:*"⟩]⟩)).emitted =
        [{ Result := some (Value.list ["user:2", "user:1"]), Error := "" }] :=
  ⟨by decide, by decide,
    (C19_keys_pattern asciiOnly mapStore [("user:2", "b"), ("user:1", "a")]
      [⟨"addr", "h:6379"⟩, ⟨"action", "keys"⟩, ⟨"key", "user:*"⟩]
      (by decide) (by decide)).1 (by decide),
    by decide⟩

/-! ## Unrecognised parameters -/

/-- A parameter whose lower-cased name is not one of the seven leaves the
variables as they are. -/
theorem extractStep_of_unrecognised (lower : Char → Char) (v : Vars) (p : Param)
    (h : ToLower lower p.InputName ∉
      ["addr", "password", "db", "action", "key", "value", "expiration"]) :
    extractStep lower v p = v := by
  simp only [List.mem_cons, List.mem_singleton, List.not_mem_nil, or_false, not_or] at h
  obtain ⟨h1, h2, h3, h4, h5, h6, h7⟩ := h
  unfold extractStep
  simp only [if_neg h1, if_neg h2, if_neg h3, if_neg h4, if_neg h5, if_neg h6, if_neg h7]

/-- C14: a parameter whose lower-cased name is not one of `addr`, `password`, `db`,
`action`, `key`, `value`, `expiration` can be inserted at any position, or
removed, without changing the variables after the loop or the run (documents
written, client calls and the store left) on any store. -/
theorem C14_unrecognised_ignored {σ : Type} (lower : Char → Char) (store : Store σ)
    (s : σ) (before after : List Param) (p : Param)
    (h : ToLower lower p.InputName ∉
      ["addr", "password", "db", "action", "key", "value", "expiration"]) :
    extract lower (before ++ p :: after) = extract lower (before ++ after) ∧
      main lower store s (.ok ⟨before ++ p :: after⟩) =
        main lower store s (.ok ⟨before ++ after⟩) := by
  have hx : extract lower (before ++ p :: after) = extract lower (before ++ after) := by
    unfold extract
    rw [List.foldl_append, List.foldl_append, List.foldl_cons,
      extractStep_of_unrecognised lower _ p h]
  exact ⟨hx, by rw [main_ok, main_ok, hx]⟩

/-- C14 at a parameter named "Timeout" put between `addr` and `key`. -/
theorem C14_unrecognised_ignored_witness :
    ToLower asciiOnly "Timeout" ∉
        ["addr", "password", "db", "action", "key", "value", "expiration"] ∧
      (main asciiOnly mapStore [("k", "v")]
          (.ok ⟨[⟨"addr", "h:6379"⟩] ++ ⟨"Timeout", "5"⟩ :: [⟨"key", "k"⟩]⟩)).emitted =
        (main asciiOnly mapStore [("k", "v")]
          (.ok ⟨[⟨"addr", "h:6379"⟩] ++ [⟨"key", "k"⟩]⟩)).emitted :=
  ⟨by decide,
    congrArg Run.emitted
      (C14_unrecognised_ignored asciiOnly mapStore [("k", "v")] [⟨"addr", "h:6379"⟩]
        [⟨"key", "k"⟩] ⟨"Timeout", "5"⟩ (by decide)).2⟩

/-! ## Fields used only by `set` -/

/-- One step of the loop keeps agreement outside `value` and `expiration`. -/
theorem extractStep_agree (lower : Char → Char) (v w : Vars) (p : Param)
    (h : AgreeButValueExpiration v w) :
    AgreeButValueExpiration (extractStep lower v p) (extractStep lower w p) := by
  obtain ⟨h1, h2, h3, h4, h5⟩ := h
  unfold extractStep AgreeButValueExpiration
  simp only
  split_ifs <;> simp [h1, h2, h3, h4, h5]

/-- A step for a `value` or `expiration` parameter changes neither of the other
five variables. -/
theorem extractStep_agree_of_valueOrExpiration (lower : Char → Char) (v w : Vars)
    (p : Param) (hp : isValueOrExpiration lower p = true)
    (h : AgreeButValueExpiration v w) :
    AgreeButValueExpiration (extractStep lower v p) w := by
  obtain ⟨h1, h2, h3, h4, h5⟩ := h
  simp only [isValueOrExpiration, decide_eq_true_eq] at hp
  unfold extractStep AgreeButValueExpiration
  simp only
  rcases hp with hp | hp <;> rw [hp] <;> simp [h1, h2, h3, h4, h5]

/-- Dropping the `value` and `expiration` parameters keeps the other five
variables. -/
theorem foldl_agree_filter (lower : Char → Char) (ps : List Param) (v w : Vars)
    (h : AgreeButValueExpiration v w) :
    AgreeButValueExpiration (ps.foldl (extractStep lower) v)
      ((ps.filter (fun p => !isValueOrExpiration lower p)).foldl (extractStep lower) w) := by
  induction ps generalizing v w with
  | nil => exact h
  | cons p ps ih =>
    by_cases hp : isValueOrExpiration lower p = true
    · rw [List.filter_cons_of_neg (by simp [hp]), List.foldl_cons]
      exact ih _ _ (extractStep_agree_of_valueOrExpiration lower v w p hp h)
    · rw [List.filter_cons_of_pos (by simp [hp]), List.foldl_cons, List.foldl_cons]
      exact ih _ _ (extractStep_agree lower v w p h)

/-- Outside `set`, the dispatcher reads neither `value` nor `expiration`. -/
theorem dispatch_congr {σ : Type} (store : Store σ) (o : Options) (v w : Vars) (s : σ)
    (h : AgreeButValueExpiration v w) (hact : v.action ≠ "set") :
    dispatch store o v s = dispatch store o w s := by
  obtain ⟨_, _, _, h4, h5⟩ := h
  have hact2 : w.action ≠ "set" := h4 ▸ hact
  unfold dispatch
  rw [if_neg hact, if_neg hact2, h4, h5]

/-- C18: two parameter lists that are the same once their `value` and `expiration`
parameters are left out, with an action other than `set`, give the same run on
every store and state: the same client call with the same arguments, the same
document, and the same store afterwards. -/
theorem C18_value_expiration_only_set {σ : Type} (lower : Char → Char) (store : Store σ)
    (s : σ) (ps qs : List Param)
    (hsame : ps.filter (fun p => !isValueOrExpiration lower p) =
      qs.filter (fun p => !isValueOrExpiration lower p))
    (hact : (extract lower ps).action ≠ "set") :
    main lower store s (.ok ⟨ps⟩) = main lower store s (.ok ⟨qs⟩) := by
  have hrefl : AgreeButValueExpiration Vars.init Vars.init := ⟨rfl, rfl, rfl, rfl, rfl⟩
  have hp := foldl_agree_filter lower ps Vars.init Vars.init hrefl
  have hq := foldl_agree_filter lower qs Vars.init Vars.init hrefl
  rw [hsame] at hp
  have h : AgreeButValueExpiration (extract lower ps) (extract lower qs) :=
    ⟨hp.1.trans hq.1.symm, hp.2.1.trans hq.2.1.symm, hp.2.2.1.trans hq.2.2.1.symm,
      hp.2.2.2.1.trans hq.2.2.2.1.symm, hp.2.2.2.2.trans hq.2.2.2.2.symm⟩
  rw [main_ok, main_ok, dispatch_congr store _ _ _ s h hact]
  obtain ⟨h1, h2, h3, h4, h5⟩ := h
  rw [h1, h2, h3, h4, h5]

/-- C18 at two `get` requests with different `value` and `expiration`. -/
theorem C18_value_expiration_only_set_witness :
    ([⟨"addr", "h:6379"⟩, ⟨"value", "x"⟩, ⟨"key", "k"⟩, ⟨"expiration", "-5"⟩] :
        List Param).filter (fun p => !isValueOrExpiration asciiOnly p) =
      ([⟨"expiration", "60"⟩, ⟨"addr", "h:6379"⟩, ⟨"key", "k"⟩] :
        List Param).filter (fun p => !isValueOrExpiration asciiOnly p) ∧
      (extract asciiOnly
        [⟨"addr", "h:6379"⟩, ⟨"value", "x"⟩, ⟨"key", "k"⟩, ⟨"expiration", "-5"⟩]).action ≠
          "set" ∧
      (main asciiOnly mapStore [("k", "v")]
          (.ok ⟨[⟨"addr", "h:6379"⟩, ⟨"value", "x"⟩, ⟨"key", "k"⟩,
            ⟨"expiration", "-5"⟩]⟩)).calls =
        (main asciiOnly mapStore [("k", "v")]
          (.ok ⟨[⟨"expiration", "60"⟩, ⟨"addr", "h:6379"⟩, ⟨"key", "k"⟩]⟩)).calls :=
  ⟨by decide, by decide,
    congrArg Run.calls
      (C18_value_expiration_only_set asciiOnly mapStore [("k", "v")]
        [⟨"addr", "h:6379"⟩, ⟨"value", "x"⟩, ⟨"key", "k"⟩, ⟨"expiration", "-5"⟩]
        [⟨"expiration", "60"⟩, ⟨"addr", "h:6379"⟩, ⟨"key", "k"⟩]
        (by decide) (by decide))⟩

/-! ## Numeric parameters -/

/-- A decimal digit has a code from 48 to 57. -/
theorem isDigit_toNat (c : Char) (h : c.isDigit = true) : 48 ≤ c.toNat ∧ c.toNat ≤ 57 := by
  simp only [Char.isDigit, Bool.and_eq_true, decide_eq_true_eq] at h
  have h1 : (48 : UInt32).toNat ≤ c.val.toNat := h.1
  have h2 : c.val.toNat ≤ (57 : UInt32).toNat := h.2
  exact ⟨h1, h2⟩

/-- A decimal digit is neither white space nor a newline nor a sign. -/
theorem isDigit_not_space (c : Char) (h : c.isDigit = true) :
    isSpace c = false ∧ c ≠ '\n' ∧ c ≠ '+' ∧ c ≠ '-' := by
  have hd := isDigit_toNat c h
  refine ⟨?_, ?_, ?_, ?_⟩
  · unfold isSpace
    simp
    omega
  · intro hc
    subst hc
    simp at hd
  · intro hc
    subst hc
    simp at hd
  · intro hc
    subst hc
    simp at hd

/-- Taking digits from a run of digits takes all of it. -/
theorem takeWhile_isDigit_of_all (l : List Char) (h : l.all Char.isDigit = true) :
    l.takeWhile Char.isDigit = l := by
  rw [List.takeWhile_eq_self_iff]
  intro x hx
  exact List.all_eq_true.mp h x hx

/-- The scan of a well-formed base-10 integer that fits 64 bits stores the
integer it denotes. -/
theorem Sscanf_of_isBase10 (str : String) (hw : isBase10 str = true)
    (hlen : str.data.length ≤ hugeWid) (hlo : -2 ^ 63 ≤ base10Value str)
    (hhi : base10Value str < 2 ^ 63) :
    Sscanf str = some (base10Value str) := by
  unfold Sscanf
  rw [List.take_of_length_le hlen]
  unfold isBase10 at hw
  unfold base10Value at hlo hhi ⊢
  cases hdata : str.data with
  | nil => rw [hdata] at hw; simp at hw
  | cons c cs =>
    rw [hdata] at hw hlo hhi
    simp only at hw hlo hhi ⊢
    by_cases hminus : c = '-'
    · subst hminus
      simp only [or_true, if_true, Bool.and_eq_true, Bool.not_eq_true',
        List.isEmpty_eq_false] at hw
      have hs : skipSpace ('-' :: cs) = some ('-' :: cs) := by
        simp [skipSpace, isSpace]
      have hne : cs ≠ [] := by
        intro h
        rw [h] at hw
        simp at hw
      rw [hs]
      simp only [or_true, if_true, takeWhile_isDigit_of_all cs hw.2, if_neg hne]
      have hle : digitsValue cs ≤ 2 ^ 63 := by
        have := hlo
        simp only [if_true] at this
        omega
      rw [if_pos hle]
    · by_cases hplus : c = '+'
      · subst hplus
        simp only [true_or, if_true, Bool.and_eq_true, Bool.not_eq_true',
          List.isEmpty_eq_false] at hw
        have hs : skipSpace ('+' :: cs) = some ('+' :: cs) := by
          simp [skipSpace, isSpace]
        have hne : cs ≠ [] := by
          intro h
          rw [h] at hw
          simp at hw
        rw [hs]
        simp only [true_or, if_true, takeWhile_isDigit_of_all cs hw.2, if_neg hne,
          if_neg hminus]
        have hlt : digitsValue cs < 2 ^ 63 := by
          have := hhi
          simp only [if_neg hminus, if_true] at this
          omega
        rw [if_pos hlt]
      · have hsign : ¬(c = '+' ∨ c = '-') := fun h => h.elim hplus hminus
        rw [if_neg hsign] at hw
        have hc : c.isDigit = true := by
          simp only [List.all_cons, Bool.and_eq_true] at hw
          exact hw.1
        have hsp := isDigit_not_space c hc
        have hs : skipSpace (c :: cs) = some (c :: cs) := by
          simp [skipSpace, hsp.1, hsp.2.1]
        rw [hs]
        simp only [if_neg hsign, takeWhile_isDigit_of_all (c :: cs) hw, if_neg hminus,
          if_neg hplus]
        have hlt : digitsValue (c :: cs) < 2 ^ 63 := by
          have := hhi
          simp only [if_neg hminus, if_neg hplus] at this
          omega
        rw [if_neg (List.cons_ne_nil c cs), if_pos hlt]

/-- A `db` or `expiration` parameter whose value does not scan leaves all seven
variables as they were. -/
theorem extractStep_of_unscannable (lower : Char → Char) (v : Vars) (p : Param)
    (hn : ToLower lower p.InputName = "db" ∨ ToLower lower p.InputName = "expiration")
    (hs : Sscanf (TrimSpace p.CompValue) = none) :
    extractStep lower v p = v := by
  unfold extractStep
  rcases hn with hn | hn <;> simp [hn, hs]

/-- The `db` variable after a run of parameters none of which scans into it. -/
theorem foldl_db_of_unscannable (lower : Char → Char) (ps : List Param) (v : Vars)
    (h : ∀ p ∈ ps, ToLower lower p.InputName = "db" →
      Sscanf (TrimSpace p.CompValue) = none) :
    (ps.foldl (extractStep lower) v).db = v.db := by
  induction ps generalizing v with
  | nil => rfl
  | cons p ps ih =>
    have hstep : (extractStep lower v p).db = v.db := by
      by_cases hn : ToLower lower p.InputName = "db"
      · rw [extractStep_of_unscannable lower v p (Or.inl hn)
          (h p (List.mem_cons_self p ps) hn)]
      · unfold extractStep
        simp only
        split_ifs <;> rfl
    rw [List.foldl_cons, ih _ (fun q hq => h q (List.mem_cons_of_mem p hq)), hstep]

/-- The `expiration` variable after a run of parameters none of which scans into
it. -/
theorem foldl_expiration_of_unscannable (lower : Char → Char) (ps : List Param) (v : Vars)
    (h : ∀ p ∈ ps, ToLower lower p.InputName = "expiration" →
      Sscanf (TrimSpace p.CompValue) = none) :
    (ps.foldl (extractStep lower) v).expiration = v.expiration := by
  induction ps generalizing v with
  | nil => rfl
  | cons p ps ih =>
    have hstep : (extractStep lower v p).expiration = v.expiration := by
      by_cases hn : ToLower lower p.InputName = "expiration"
      · rw [extractStep_of_unscannable lower v p (Or.inr hn)
          (h p (List.mem_cons_self p ps) hn)]
      · unfold extractStep
        simp only
        split_ifs <;> rfl
    rw [List.foldl_cons, ih _ (fun q hq => h q (List.mem_cons_of_mem p hq)), hstep]

/-- Taking digits from a run of digits followed by a non-digit takes the run. -/
theorem takeWhile_isDigit_append (ds rest : List Char) (h : ds.all Char.isDigit = true)
    (hrest : ∀ c, rest.head? = some c → c.isDigit = false) :
    (ds ++ rest).takeWhile Char.isDigit = ds := by
  induction ds with
  | nil =>
    cases rest with
    | nil => rfl
    | cons c r =>
      rw [List.nil_append, List.takeWhile_cons, hrest c rfl]
      rfl
  | cons d ds ih =>
    simp only [List.all_cons, Bool.and_eq_true] at h
    rw [List.cons_append, List.takeWhile_cons, h.1]
    simp only [if_true]
    rw [ih h.2]

/-- The scan of a text that starts with a well-formed base-10 integer fitting 64
bits, followed by nothing or by a rune that is not a digit, stores that integer:
what follows the digits is not looked at. -/
theorem Sscanf_of_leading (str t : String) (rest : List Char)
    (hdata : str.data = t.data ++ rest) (hw : isBase10 t = true)
    (hrest : ∀ c, rest.head? = some c → c.isDigit = false)
    (hlen : str.data.length ≤ hugeWid) (hlo : -2 ^ 63 ≤ base10Value t)
    (hhi : base10Value t < 2 ^ 63) :
    Sscanf str = some (base10Value t) := by
  unfold Sscanf
  rw [List.take_of_length_le hlen, hdata]
  unfold isBase10 at hw
  unfold base10Value at hlo hhi ⊢
  cases ht : t.data with
  | nil => rw [ht] at hw; simp at hw
  | cons c cs =>
    rw [ht] at hw hlo hhi
    simp only at hw hlo hhi ⊢
    rw [List.cons_append]
    by_cases hminus : c = '-'
    · subst hminus
      simp only [or_true, if_true, Bool.and_eq_true, Bool.not_eq_true',
        List.isEmpty_eq_false] at hw
      have hs : skipSpace ('-' :: (cs ++ rest)) = some ('-' :: (cs ++ rest)) := by
        simp [skipSpace, isSpace]
      have hne : cs ≠ [] := by
        intro h
        rw [h] at hw
        simp at hw
      rw [hs]
      simp only [or_true, if_true, takeWhile_isDigit_append cs rest hw.2 hrest, if_neg hne]
      have hle : digitsValue cs ≤ 2 ^ 63 := by
        have := hlo
        simp only [if_true] at this
        omega
      rw [if_pos hle]
    · by_cases hplus : c = '+'
      · subst hplus
        simp only [true_or, if_true, Bool.and_eq_true, Bool.not_eq_true',
          List.isEmpty_eq_false] at hw
        have hs : skipSpace ('+' :: (cs ++ rest)) = some ('+' :: (cs ++ rest)) := by
          simp [skipSpace, isSpace]
        have hne : cs ≠ [] := by
          intro h
          rw [h] at hw
          simp at hw
        rw [hs]
        simp only [true_or, if_true, takeWhile_isDigit_append cs rest hw.2 hrest,
          if_neg hne, if_neg hminus]
        have hlt : digitsValue cs < 2 ^ 63 := by
          have := hhi
          simp only [if_neg hminus, if_true] at this
          omega
        rw [if_pos hlt]
      · have hsign : ¬(c = '+' ∨ c = '-') := fun h => h.elim hplus hminus
        rw [if_neg hsign] at hw
        have hc : c.isDigit = true := by
          simp only [List.all_cons, Bool.and_eq_true] at hw
          exact hw.1
        have hsp := isDigit_not_space c hc
        have hs : skipSpace (c :: (cs ++ rest)) = some (c :: (cs ++ rest)) := by
          simp [skipSpace, hsp.1, hsp.2.1]
        have htw : (c :: (cs ++ rest)).takeWhile Char.isDigit = c :: cs := by
          have := takeWhile_isDigit_append (c :: cs) rest hw hrest
          rwa [List.cons_append] at this
        rw [hs]
        simp only [if_neg hsign, htw, if_neg hminus, if_neg hplus]
        have hlt : digitsValue (c :: cs) < 2 ^ 63 := by
          have := hhi
          simp only [if_neg hminus, if_neg hplus] at this
          omega
        rw [if_neg (List.cons_ne_nil c cs), if_pos hlt]

/-- C12, as stated, fails: a value that only starts with an integer is scanned up
to the first non-digit ("12abc" gives 12, not 0), and a value that does not scan
keeps what an earlier parameter stored ("5" then "abc" gives 5, not 0). -/
theorem C12_malformed_counterexample :
    isBase10 "12abc" = false ∧ (extract asciiOnly [⟨"db", "12abc"⟩]).db = 12 ∧
      isBase10 "abc" = false ∧
      (extract asciiOnly [⟨"db", "5"⟩, ⟨"db", "abc"⟩]).db = 5 ∧
      (extract asciiOnly [⟨"expiration", "5"⟩, ⟨"expiration", ""⟩]).expiration = 5 := by
  decide

/-- C12, amended: when the last `db` (resp. `expiration`) parameter has, after
trimming, a well-formed base-10 integer of at most `hugeWid` runes that fits 64
bits, the variable is that integer; when no `db` (resp. `expiration`) parameter
scans, the variable is zero; and a `db` or `expiration` parameter that does not
scan ("abc", the empty text) changes no variable, so the request goes on.
Further, when the trimmed value of the last such parameter starts with a
well-formed integer fitting 64 bits and goes on with a rune that is not a digit
(as "12abc"), the variable is that leading integer; and when the last such
parameter does not scan, the variable is what the parameters before it left. -/
theorem C12_numeric_fields (lower : Char → Char) (ps : List Param) :
    (∀ (before after : List Param) (p : Param), ps = before ++ p :: after →
      ToLower lower p.InputName = "db" →
      (∀ q ∈ after, ToLower lower q.InputName ≠ "db") →
      isBase10 (TrimSpace p.CompValue) = true →
      (TrimSpace p.CompValue).data.length ≤ hugeWid →
      -2 ^ 63 ≤ base10Value (TrimSpace p.CompValue) →
      base10Value (TrimSpace p.CompValue) < 2 ^ 63 →
      (extract lower ps).db = base10Value (TrimSpace p.CompValue)) ∧
    (∀ (before after : List Param) (p : Param), ps = before ++ p :: after →
      ToLower lower p.InputName = "expiration" →
      (∀ q ∈ after, ToLower lower q.InputName ≠ "expiration") →
      isBase10 (TrimSpace p.CompValue) = true →
      (TrimSpace p.CompValue).data.length ≤ hugeWid →
      -2 ^ 63 ≤ base10Value (TrimSpace p.CompValue) →
      base10Value (TrimSpace p.CompValue) < 2 ^ 63 →
      (extract lower ps).expiration = base10Value (TrimSpace p.CompValue)) ∧
    ((∀ p ∈ ps, ToLower lower p.InputName = "db" →
        Sscanf (TrimSpace p.CompValue) = none) → (extract lower ps).db = 0) ∧
    ((∀ p ∈ ps, ToLower lower p.InputName = "expiration" →
        Sscanf (TrimSpace p.CompValue) = none) → (extract lower ps).expiration = 0) ∧
    (∀ (v : Vars) (p : Param),
      ToLower lower p.InputName = "db" ∨ ToLower lower p.InputName = "expiration" →
      Sscanf (TrimSpace p.CompValue) = none → extractStep lower v p = v) ∧
    Sscanf (TrimSpace "abc") = none ∧ Sscanf (TrimSpace "") = none ∧
    (∀ (before after : List Param) (p : Param) (t : String) (rest : List Char),
      ps = before ++ p :: after → ToLower lower p.InputName = "db" →
      (∀ q ∈ after, ToLower lower q.InputName ≠ "db") →
      (TrimSpace p.CompValue).data = t.data ++ rest → isBase10 t = true →
      (∀ c, rest.head? = some c → c.isDigit = false) →
      (TrimSpace p.CompValue).data.length ≤ hugeWid →
      -2 ^ 63 ≤ base10Value t → base10Value t < 2 ^ 63 →
      (extract lower ps).db = base10Value t) ∧
    (∀ (before after : List Param) (p : Param) (t : String) (rest : List Char),
      ps = before ++ p :: after → ToLower lower p.InputName = "expiration" →
      (∀ q ∈ after, ToLower lower q.InputName ≠ "expiration") →
      (TrimSpace p.CompValue).data = t.data ++ rest → isBase10 t = true →
      (∀ c, rest.head? = some c → c.isDigit = false) →
      (TrimSpace p.CompValue).data.length ≤ hugeWid →
      -2 ^ 63 ≤ base10Value t → base10Value t < 2 ^ 63 →
      (extract lower ps).expiration = base10Value t) ∧
    (∀ (before after : List Param) (p : Param), ps = before ++ p :: after →
      ToLower lower p.InputName = "db" →
      (∀ q ∈ after, ToLower lower q.InputName ≠ "db") →
      Sscanf (TrimSpace p.CompValue) = none →
      (extract lower ps).db = (extract lower before).db) ∧
    (∀ (before after : List Param) (p : Param), ps = before ++ p :: after →
      ToLower lower p.InputName = "expiration" →
      (∀ q ∈ after, ToLower lower q.InputName ≠ "expiration") →
      Sscanf (TrimSpace p.CompValue) = none →
      (extract lower ps).expiration = (extract lower before).expiration) := by
  refine ⟨?_, ?_, ?_, ?_, ?_, by decide, by decide, ?_, ?_, ?_, ?_⟩
  · intro before after p hps hn hafter hw hlen hlo hhi
    subst hps
    unfold extract
    rw [List.foldl_append, List.foldl_cons,
      foldl_db_of_unscannable lower after _ (fun q hq hqn => absurd hqn (hafter q hq))]
    unfold extractStep
    simp [hn, Sscanf_of_isBase10 _ hw hlen hlo hhi]
  · intro before after p hps hn hafter hw hlen hlo hhi
    subst hps
    unfold extract
    rw [List.foldl_append, List.foldl_cons,
      foldl_expiration_of_unscannable lower after _
        (fun q hq hqn => absurd hqn (hafter q hq))]
    unfold extractStep
    simp [hn, Sscanf_of_isBase10 _ hw hlen hlo hhi]
  · intro h
    exact foldl_db_of_unscannable lower ps Vars.init h
  · intro h
    exact foldl_expiration_of_unscannable lower ps Vars.init h
  · intro v p hn hs
    exact extractStep_of_unscannable lower v p hn hs
  · intro before after p t rest hps hn hafter hdata hw hrest hlen hlo hhi
    subst hps
    unfold extract
    rw [List.foldl_append, List.foldl_cons,
      foldl_db_of_unscannable lower after _ (fun q hq hqn => absurd hqn (hafter q hq))]
    unfold extractStep
    simp [hn, Sscanf_of_leading _ t rest hdata hw hrest hlen hlo hhi]
  · intro before after p t rest hps hn hafter hdata hw hrest hlen hlo hhi
    subst hps
    unfold extract
    rw [List.foldl_append, List.foldl_cons,
      foldl_expiration_of_unscannable lower after _
        (fun q hq hqn => absurd hqn (hafter q hq))]
    unfold extractStep
    simp [hn, Sscanf_of_leading _ t rest hdata hw hrest hlen hlo hhi]
  · intro before after p hps hn hafter hs
    subst hps
    unfold extract
    rw [List.foldl_append, List.foldl_cons,
      foldl_db_of_unscannable lower after _ (fun q hq hqn => absurd hqn (hafter q hq)),
      extractStep_of_unscannable lower _ p (Or.inl hn) hs]
  · intro before after p hps hn hafter hs
    subst hps
    unfold extract
    rw [List.foldl_append, List.foldl_cons,
      foldl_expiration_of_unscannable lower after _
        (fun q hq hqn => absurd hqn (hafter q hq)),
      extractStep_of_unscannable lower _ p (Or.inr hn) hs]

/-- C12, amended, at `db = " -42 "` followed by a parameter of another name, and
at `db = "12abc"`, whose leading integer is 12. -/
theorem C12_numeric_fields_witness :
    isBase10 (TrimSpace " -42 ") = true ∧ base10Value (TrimSpace " -42 ") = -42 ∧
      (extract asciiOnly [⟨"addr", "h:6379"⟩, ⟨"DB", " -42 "⟩, ⟨"key", "k"⟩]).db = -42 ∧
      (TrimSpace "12abc").data = "12".data ++ ['a', 'b', 'c'] ∧ isBase10 "12" = true ∧
      (extract asciiOnly [⟨"db", "12abc"⟩]).db = base10Value "12" :=
  ⟨by decide, by decide,
    ((C12_numeric_fields asciiOnly
        [⟨"addr", "h:6379"⟩, ⟨"DB", " -42 "⟩, ⟨"key", "k"⟩]).1
      [⟨"addr", "h:6379"⟩] [⟨"key", "k"⟩] ⟨"DB", " -42 "⟩ rfl (by decide) (by decide)
      (by decide) (by decide) (by decide) (by decide)).trans (by decide),
    by decide, by decide,
    (C12_numeric_fields asciiOnly [⟨"db", "12abc"⟩]).2.2.2.2.2.2.2.1
      [] [] ⟨"db", "12abc"⟩ "12" ['a', 'b', 'c'] rfl (by decide) (by decide) (by decide)
      (by decide) (by decide) (by decide) (by decide) (by decide)⟩

/-! ## The action -/

/-- The `action` variable after a run of parameters whose `action` values are all
blank. -/
theorem foldl_action_of_blank (lower : Char → Char) (ps : List Param) (v : Vars)
    (h : ∀ p ∈ ps, ToLower lower p.InputName = "action" → TrimSpace p.CompValue = "") :
    (ps.foldl (extractStep lower) v).action = v.action := by
  induction ps generalizing v with
  | nil => rfl
  | cons p ps ih =>
    have hstep : (extractStep lower v p).action = v.action := by
      by_cases hn : ToLower lower p.InputName = "action"
      · have hb := h p (List.mem_cons_self p ps) hn
        unfold extractStep
        simp [hn, hb]
      · unfold extractStep
        simp only
        split_ifs <;> rfl
    rw [List.foldl_cons, ih _ (fun q hq => h q (List.mem_cons_of_mem p hq)), hstep]

/-- C13, as stated, fails when a blank action follows a non-blank one: the blank
value is skipped and the earlier action stays, so the action is "set", not "get". -/
theorem C13_blank_after_action_counterexample :
    TrimSpace " " = "" ∧
      (extract asciiOnly [⟨"action", "set"⟩, ⟨"action", " "⟩]).action = "set" ∧
      (extract asciiOnly [⟨"action", "set"⟩, ⟨"action", " "⟩]).action ≠ "get" := by
  decide

/-- C13, amended: the action is "get" when no `action` parameter has a non-blank
value; otherwise it is the lower-cased trimmed value of the last `action`
parameter whose value is not blank; and a request with non-empty address and key
and no `action` parameter makes the one call `Get key`. -/
theorem C13_action_default {σ : Type} (lower : Char → Char) (store : Store σ) (s : σ)
    (ps : List Param) :
    ((∀ p ∈ ps, ToLower lower p.InputName = "action" → TrimSpace p.CompValue = "") →
      (extract lower ps).action = "get") ∧
    (∀ (before after : List Param) (p : Param), ps = before ++ p :: after →
      ToLower lower p.InputName = "action" → TrimSpace p.CompValue ≠ "" →
      (∀ q ∈ after, ToLower lower q.InputName = "action" → TrimSpace q.CompValue = "") →
      (extract lower ps).action = ToLower lower (TrimSpace p.CompValue)) ∧
    ((∀ p ∈ ps, ToLower lower p.InputName ≠ "action") →
      (extract lower ps).addr ≠ "" → (extract lower ps).key ≠ "" →
      (main lower store s (.ok ⟨ps⟩)).calls =
        [(⟨(extract lower ps).addr, (extract lower ps).password, (extract lower ps).db⟩,
          Cmd.Get (extract lower ps).key)]) := by
  have hblank : (∀ p ∈ ps, ToLower lower p.InputName = "action" →
      TrimSpace p.CompValue = "") → (extract lower ps).action = "get" :=
    fun h => foldl_action_of_blank lower ps Vars.init h
  refine ⟨hblank, ?_, ?_⟩
  · intro before after p hps hn hv hafter
    subst hps
    unfold extract
    rw [List.foldl_append, List.foldl_cons, foldl_action_of_blank lower after _ hafter]
    unfold extractStep
    simp [hn, hv]
  · intro hno ha hk
    have hact : (extract lower ps).action = "get" :=
      hblank (fun p hp hn => absurd hn (hno p hp))
    rw [main_ok, if_neg ha, if_neg (fun h => hk h.1)]
    simp [dispatch, hact]

/-- C13, amended, at a request without action and at one with the action " DEL ". -/
theorem C13_action_default_witness :
    (main asciiOnly mapStore [("k", "v")]
        (.ok ⟨[⟨"addr", "h:6379"⟩, ⟨"key", "k"⟩]⟩)).calls =
      [(⟨"h:6379", "", 0⟩, Cmd.Get "k")] ∧
    (extract asciiOnly [⟨"action", "get"⟩, ⟨"Action", " DEL "⟩, ⟨"action", ""⟩]).action =
      "del" :=
  ⟨(C13_action_default asciiOnly mapStore [("k", "v")]
      [⟨"addr", "h:6379"⟩, ⟨"key", "k"⟩]).2.2 (by decide) (by decide) (by decide),
    by decide⟩

/-! ## Sign of the expiration -/

/-- What `skipSpace` returns is part of its input. -/
theorem skipSpace_mem (l r : List Char) (h : skipSpace l = some r) :
    ∀ x ∈ r, x ∈ l := by
  induction l with
  | nil =>
    simp only [skipSpace, Option.some.injEq] at h
    subst h
    intro x hx
    exact hx
  | cons c cs ih =>
    unfold skipSpace at h
    split_ifs at h with h1 h2
    · intro x hx
      exact List.mem_cons_of_mem c (ih h x hx)
    · simp only [Option.some.injEq] at h
      subst h
      intro x hx
      exact hx

/-- A scan of a text without a minus sign stores no negative number. -/
theorem Sscanf_nonneg (str : String) (n : Int) (h : Sscanf str = some n)
    (hminus : '-' ∉ str.data) : 0 ≤ n := by
  unfold Sscanf at h
  split at h
  · cases h
  · cases h
  · rename_i c cs hs
    have hc : c ∈ str.data :=
      List.mem_of_mem_take (skipSpace_mem _ _ hs c (List.mem_cons_self c cs))
    have hne : c ≠ '-' := fun hc2 => hminus (hc2 ▸ hc)
    simp only [if_neg hne] at h
    split_ifs at h <;>
      (simp only [Option.some.injEq] at h
       rw [← h]
       exact Int.ofNat_nonneg _)

/-- The `expiration` variable stays non-negative along parameters whose
`expiration` values carry no minus sign. -/
theorem foldl_expiration_nonneg (lower : Char → Char) (ps : List Param) (v : Vars)
    (hv : 0 ≤ v.expiration)
    (h : ∀ p ∈ ps, ToLower lower p.InputName = "expiration" →
      '-' ∉ (TrimSpace p.CompValue).data) :
    0 ≤ (ps.foldl (extractStep lower) v).expiration := by
  induction ps generalizing v with
  | nil => exact hv
  | cons p ps ih =>
    have hstep : 0 ≤ (extractStep lower v p).expiration := by
      by_cases hn : ToLower lower p.InputName = "expiration"
      · have hm := h p (List.mem_cons_self p ps) hn
        unfold extractStep
        simp only [hn]
        simp only [String.reduceEq, if_false, if_true]
        cases hsc : Sscanf (TrimSpace p.CompValue) with
        | none => exact hv
        | some n => exact Sscanf_nonneg _ n hsc hm
      · unfold extractStep
        simp only
        split_ifs <;> exact hv
    rw [List.foldl_cons]
    exact ih _ hstep (fun q hq => h q (List.mem_cons_of_mem p hq))

/-- C17, as stated, fails: the expiration "-5" is stored as -5 and `Set` is handed
a duration of -5000000000 ns. -/
theorem C17_negative_expiration_counterexample :
    (extract asciiOnly
        [⟨"addr", "h:6379"⟩, ⟨"action", "set"⟩, ⟨"key", "k"⟩, ⟨"value", "v"⟩,
          ⟨"expiration", "-5"⟩]).expiration = -5 ∧
      (main asciiOnly mapStore []
          (.ok ⟨[⟨"addr", "h:6379"⟩, ⟨"action", "set"⟩, ⟨"key", "k"⟩, ⟨"value", "v"⟩,
            ⟨"expiration", "-5"⟩]⟩)).calls =
        [(⟨"h:6379", "", 0⟩, Cmd.Set "k" "v" (-5000000000))] := by
  decide

/-- The last element of a list with a new head, over a default. -/
theorem getLast?_cons_getD (l : List Int) (n d : Int) :
    ((n :: l).getLast?).getD d = (l.getLast?).getD n := by
  cases l with
  | nil => rfl
  | cons y ys =>
    rw [List.getLast?_cons_cons]
    cases h : (y :: ys).getLast? with
    | none => simp at h
    | some z => rfl

/-- The `expiration` variable after the loop is the last integer scanned from an
`expiration` parameter, or what it was when none scans. -/
theorem foldl_expiration_eq (lower : Char → Char) (ps : List Param) (v : Vars) :
    (ps.foldl (extractStep lower) v).expiration =
      ((scannedExpirations lower ps).getLast?).getD v.expiration := by
  induction ps generalizing v with
  | nil => rfl
  | cons p ps ih =>
    rw [List.foldl_cons, ih]
    by_cases hn : ToLower lower p.InputName = "expiration"
    · cases hs : Sscanf (TrimSpace p.CompValue) with
      | none =>
        rw [extractStep_of_unscannable lower v p (Or.inr hn) hs]
        simp [scannedExpirations, List.filterMap_cons, hn, hs]
      | some n =>
        have hstep : (extractStep lower v p).expiration = n := by
          unfold extractStep
          simp [hn, hs]
        have hsc : scannedExpirations lower (p :: ps) = n :: scannedExpirations lower ps := by
          simp [scannedExpirations, List.filterMap_cons, hn, hs]
        rw [hstep, hsc, getLast?_cons_getD]
    · have hstep : (extractStep lower v p).expiration = v.expiration := by
        unfold extractStep
        simp only
        split_ifs <;> rfl
      have hsc : scannedExpirations lower (p :: ps) = scannedExpirations lower ps := by
        simp [scannedExpirations, List.filterMap_cons, hn]
      rw [hstep, hsc]

/-- C17, amended: the expiration after the loop is the integer scanned from the
last `expiration` parameter that scans, and zero when none scans.  When that last
scanned integer is not negative, the expiration is at least zero, and as long as
it is at most 9223372036 the duration handed to `Set` by a valid `set` request is
at least zero. -/
theorem C17_expiration_nonneg {σ : Type} (lower : Char → Char) (store : Store σ) (s : σ)
    (ps : List Param)
    (hlast : ∀ n : Int, (scannedExpirations lower ps).getLast? = some n → 0 ≤ n) :
    0 ≤ (extract lower ps).expiration ∧
      ((extract lower ps).expiration ≤ 9223372036 →
        0 ≤ Duration (extract lower ps).expiration ∧
          ((extract lower ps).addr ≠ "" → (extract lower ps).key ≠ "" →
            (extract lower ps).action = "set" →
            ∃ ttl : Int, 0 ≤ ttl ∧
              (main lower store s (.ok ⟨ps⟩)).calls =
                [(⟨(extract lower ps).addr, (extract lower ps).password,
                    (extract lower ps).db⟩,
                  Cmd.Set (extract lower ps).key (extract lower ps).value ttl)])) ∧
      (extract lower ps).expiration = ((scannedExpirations lower ps).getLast?).getD 0 := by
  have heq : (extract lower ps).expiration =
      ((scannedExpirations lower ps).getLast?).getD 0 :=
    foldl_expiration_eq lower ps Vars.init
  have h0 : 0 ≤ (extract lower ps).expiration := by
    rw [heq]
    cases hl : (scannedExpirations lower ps).getLast? with
    | none => exact le_refl 0
    | some n => exact hlast n hl
  refine ⟨h0, fun hhi => ?_, heq⟩
  have hd : 0 ≤ Duration (extract lower ps).expiration := by
    rw [Duration_of_range _ (by omega) hhi]
    unfold Second
    omega
  exact ⟨hd, fun ha hk hact => ⟨_, hd, (set_call lower store s ps ha hk hact).1⟩⟩

/-- C17, amended, at a `set` whose expiration is given as "-5" and then as "5-3":
the last scanned integer is 5. -/
theorem C17_expiration_nonneg_witness :
    (scannedExpirations asciiOnly
        [⟨"expiration", "-5"⟩, ⟨"addr", "h:6379"⟩, ⟨"action", "set"⟩, ⟨"key", "k"⟩,
          ⟨"value", "v"⟩, ⟨"expiration", "5-3"⟩]).getLast? = some 5 ∧
      (0 : Int) ≤ (extract asciiOnly
        [⟨"expiration", "-5"⟩, ⟨"addr", "h:6379"⟩, ⟨"action", "set"⟩, ⟨"key", "k"⟩,
          ⟨"value", "v"⟩, ⟨"expiration", "5-3"⟩]).expiration ∧
      (extract asciiOnly
        [⟨"expiration", "-5"⟩, ⟨"addr", "h:6379"⟩, ⟨"action", "set"⟩, ⟨"key", "k"⟩,
          ⟨"value", "v"⟩, ⟨"expiration", "5-3"⟩]).expiration = 5 :=
  have hl : (scannedExpirations asciiOnly
      [⟨"expiration", "-5"⟩, ⟨"addr", "h:6379"⟩, ⟨"action", "set"⟩, ⟨"key", "k"⟩,
        ⟨"value", "v"⟩, ⟨"expiration", "5-3"⟩]).getLast? = some 5 := by decide
  ⟨hl,
    (C17_expiration_nonneg asciiOnly mapStore []
      [⟨"expiration", "-5"⟩, ⟨"addr", "h:6379"⟩, ⟨"action", "set"⟩, ⟨"key", "k"⟩,
        ⟨"value", "v"⟩, ⟨"expiration", "5-3"⟩]
      (fun n hn => by
        rw [hl] at hn
        cases hn
        decide)).1,
    by decide⟩

/-! ## Letter case of names, white space around values -/

/-- Runes that are the same letter up to case have the same lower-case rune. -/
theorem toLowerRune_of_sameLetter (lower : Char → Char) (x y : Char)
    (h : sameLetter lower x y = true) : toLowerRune lower x = toLowerRune lower y := by
  simp only [sameLetter, Bool.or_eq_true, Bool.and_eq_true, decide_eq_true_eq] at h
  rcases h with ((h | h) | h) | h
  · rw [h]
  · obtain ⟨⟨h1, h2⟩, h3⟩ := h
    have hy : Char.ofNat (x.toNat + 32) = y := by rw [← h3, Char.ofNat_toNat]
    unfold toLowerRune
    rw [if_pos (by omega), if_pos ⟨h1, h2⟩, if_pos (by omega), if_neg (by omega), hy]
  · obtain ⟨⟨h1, h2⟩, h3⟩ := h
    have hx : Char.ofNat (y.toNat + 32) = x := by rw [← h3, Char.ofNat_toNat]
    unfold toLowerRune
    rw [if_pos (by omega), if_neg (by omega), if_pos (by omega), if_pos ⟨h1, h2⟩, hx]
  · obtain ⟨⟨h1, h2⟩, h3⟩ := h
    unfold toLowerRune
    rw [if_neg (by omega), if_neg (by omega), h3]

/-- Case variants have the same lower-case runes. -/
theorem map_toLowerRune_of_caseVariantRunes (lower : Char → Char) (a b : List Char)
    (h : caseVariantRunes lower a b = true) :
    a.map (toLowerRune lower) = b.map (toLowerRune lower) := by
  induction a generalizing b with
  | nil =>
    cases b with
    | nil => rfl
    | cons y ys => simp [caseVariantRunes] at h
  | cons x xs ih =>
    cases b with
    | nil => simp [caseVariantRunes] at h
    | cons y ys =>
      simp only [caseVariantRunes, Bool.and_eq_true] at h
      rw [List.map_cons, List.map_cons, toLowerRune_of_sameLetter lower x y h.1, ih ys h.2]

/-- Case variants of a name are lower-cased to the same text. -/
theorem ToLower_of_caseVariant (lower : Char → Char) (a b : String)
    (h : CaseVariant lower a b = true) : ToLower lower a = ToLower lower b := by
  unfold ToLower
  rw [map_toLowerRune_of_caseVariantRunes lower a.data b.data h]

/-- White space added after a list does not survive trimming on the right. -/
theorem rdropWhile_append_spaces (a r : List Char) (hr : ∀ c ∈ r, isSpace c = true) :
    List.rdropWhile isSpace (a ++ r) = List.rdropWhile isSpace a := by
  unfold List.rdropWhile
  rw [List.reverse_append,
    List.dropWhile_append_of_pos (fun c hc => hr c (List.mem_reverse.mp hc))]

/-- Trimming on the left of a list followed by white space. -/
theorem dropWhile_append_spaces (a r : List Char) (hr : ∀ c ∈ r, isSpace c = true) :
    List.dropWhile isSpace (a ++ r) = [] ∧ List.dropWhile isSpace a = [] ∨
      List.dropWhile isSpace (a ++ r) = List.dropWhile isSpace a ++ r := by
  induction a with
  | nil =>
    left
    refine ⟨?_, rfl⟩
    rw [List.nil_append, List.dropWhile_eq_nil_iff]
    exact hr
  | cons x xs ih =>
    by_cases hx : isSpace x = true
    · rw [List.cons_append, List.dropWhile_cons_of_pos hx, List.dropWhile_cons_of_pos hx]
      exact ih
    · right
      rw [List.cons_append, List.dropWhile_cons_of_neg hx, List.dropWhile_cons_of_neg hx,
        List.cons_append]

/-- Padding a value with white space does not change what trimming leaves. -/
theorem TrimSpace_of_padded (v w : String) (h : Padded v w) : TrimSpace w = TrimSpace v := by
  obtain ⟨l, r, hl, hr, hw⟩ := h
  unfold TrimSpace
  rw [hw, List.append_assoc, List.dropWhile_append_of_pos hl]
  rcases dropWhile_append_spaces v.data r hr with h1 | h1
  · rw [h1.1, h1.2]
  · rw [h1, rdropWhile_append_spaces _ r hr]

/-- A parameter and a variant of it do the same to the variables. -/
theorem extractStep_of_variant (lower : Char → Char) (v : Vars) (p q : Param)
    (h : Variant lower p q) : extractStep lower v q = extractStep lower v p := by
  unfold extractStep
  rw [ToLower_of_caseVariant lower _ _ h.1, TrimSpace_of_padded _ _ h.2]

/-- C15: when every name of a parameter list is replaced by a case variant and
every value is padded with white space, the variables after the loop are the
same, and so is the run on every store: the same client call, document and store
afterwards. -/
theorem C15_case_and_padding {σ : Type} (lower : Char → Char) (store : Store σ) (s : σ)
    (ps qs : List Param) (h : List.Forall₂ (Variant lower) ps qs) :
    extract lower qs = extract lower ps ∧
      main lower store s (.ok ⟨qs⟩) = main lower store s (.ok ⟨ps⟩) := by
  have hx : ∀ v : Vars, qs.foldl (extractStep lower) v = ps.foldl (extractStep lower) v := by
    induction h with
    | nil => intro v; rfl
    | cons hpq _ ih =>
      intro v
      rw [List.foldl_cons, List.foldl_cons, extractStep_of_variant lower v _ _ hpq, ih]
  have he : extract lower qs = extract lower ps := hx Vars.init
  exact ⟨he, by rw [main_ok, main_ok, he]⟩

/-- C15 at the names "ADDR" and "Key" with padded values. -/
theorem C15_case_and_padding_witness :
    List.Forall₂ (Variant asciiOnly)
        [⟨"addr", "h:6379"⟩, ⟨"key", "k"⟩] [⟨"ADDR", "  h:6379\t"⟩, ⟨"Key", "\nk "⟩] ∧
      extract asciiOnly [⟨"ADDR", "  h:6379\t"⟩, ⟨"Key", "\nk "⟩] =
        extract asciiOnly [⟨"addr", "h:6379"⟩, ⟨"key", "k"⟩] ∧
      (extract asciiOnly [⟨"ADDR", "  h:6379\t"⟩, ⟨"Key", "\nk "⟩]).key = "k" :=
  have hv : List.Forall₂ (Variant asciiOnly)
      [⟨"addr", "h:6379"⟩, ⟨"key", "k"⟩] [⟨"ADDR", "  h:6379\t"⟩, ⟨"Key", "\nk "⟩] :=
    List.Forall₂.cons ⟨by decide, [' ', ' '], ['\t'], by decide, by decide, by decide⟩
      (List.Forall₂.cons ⟨by decide, ['\n'], [' '], by decide, by decide, by decide⟩
        List.Forall₂.nil)
  ⟨hv, (C15_case_and_padding asciiOnly mapStore [] _ _ hv).1, by decide⟩

/-! ## Repeated parameters -/

/-- A step for a parameter named `n` changes at most the variable of `n`. -/
theorem extractStep_named_agree (lower : Char → Char) (n : String) (v w : Vars)
    (p : Param) (hn : ToLower lower p.InputName = n) (h : AgreeExcept n v w) :
    AgreeExcept n (extractStep lower v p) w := by
  unfold AgreeExcept at h ⊢
  unfold extractStep
  simp only [hn]
  split_ifs <;> simp_all

/-- A step for a parameter of another name keeps agreement outside `n`. -/
theorem extractStep_other_agree (lower : Char → Char) (n : String) (v w : Vars)
    (p : Param) (hn : ToLower lower p.InputName ≠ n) (h : AgreeExcept n v w) :
    AgreeExcept n (extractStep lower v p) (extractStep lower w p) := by
  have e : ∀ m : String, ToLower lower p.InputName = m → ¬n = m :=
    fun m hm hnm => hn (hm.trans hnm.symm)
  unfold AgreeExcept at h ⊢
  unfold extractStep
  simp only
  split_ifs <;>
    first
      | (have hm := e _ (by assumption)
         simp_all)
      | simp_all

/-- A step for a parameter named `n` that assigns makes states that agree outside
`n` equal. -/
theorem extractStep_assign_eq (lower : Char → Char) (n : String) (v w : Vars)
    (p : Param) (hn : ToLower lower p.InputName = n) (ha : assigns lower p = true)
    (h : AgreeExcept n v w) :
    extractStep lower v p = extractStep lower w p := by
  obtain ⟨addr, password, db, action, key, value, expiration⟩ := v
  obtain ⟨addr2, password2, db2, action2, key2, value2, expiration2⟩ := w
  unfold AgreeExcept at h
  unfold assigns at ha
  unfold extractStep
  simp only [hn] at ha ⊢
  split_ifs at ha ⊢ <;> simp_all [Option.isSome_iff_exists] <;>
    (obtain ⟨a, ha⟩ := ha
     rw [ha]
     rfl)

/-- Without a parameter named `n` nothing is dropped. -/
theorem dropEarlier_of_absent (lower : Char → Char) (n : String) (ps : List Param)
    (h : ∀ q ∈ ps, ToLower lower q.InputName ≠ n) : dropEarlier lower n ps = ps := by
  induction ps with
  | nil => rfl
  | cons p ps ih =>
    unfold dropEarlier
    rw [if_neg (fun hc => h p (List.mem_cons_self p ps) hc.1),
      ih (fun q hq => h q (List.mem_cons_of_mem p hq))]

/-- Up to the last parameter named `n`, dropping the earlier ones is filtering. -/
theorem dropEarlier_append (lower : Char → Char) (n : String) (before after : List Param)
    (p : Param) (hn : ToLower lower p.InputName = n)
    (hafter : ∀ q ∈ after, ToLower lower q.InputName ≠ n) :
    dropEarlier lower n (before ++ p :: after) =
      before.filter (fun q => !decide (ToLower lower q.InputName = n)) ++ p :: after := by
  induction before with
  | nil =>
    have hany : ¬(after.any fun q => decide (ToLower lower q.InputName = n)) = true := by
      simp only [List.any_eq_true, decide_eq_true_eq, not_exists, not_and]
      exact hafter
    rw [List.nil_append, List.filter_nil, List.nil_append]
    unfold dropEarlier
    rw [if_neg (fun hc => hany hc.2), dropEarlier_of_absent lower n after hafter]
  | cons b bs ih =>
    have hany : ((bs ++ p :: after).any fun q => decide (ToLower lower q.InputName = n)) =
        true := by
      simp only [List.any_eq_true, decide_eq_true_eq]
      exact ⟨p, by simp, hn⟩
    rw [List.cons_append]
    unfold dropEarlier
    by_cases hb : ToLower lower b.InputName = n
    · rw [if_pos ⟨hb, hany⟩, ih, List.filter_cons_of_neg (by simp [hb])]
    · rw [if_neg (fun hc => hb hc.1), ih, List.filter_cons_of_pos (by simp [hb]),
        List.cons_append]

/-- Leaving out parameters named `n` changes at most the variable of `n`. -/
theorem foldl_filter_agreeExcept (lower : Char → Char) (n : String) (ps : List Param)
    (v w : Vars) (h : AgreeExcept n v w) :
    AgreeExcept n (ps.foldl (extractStep lower) v)
      ((ps.filter (fun q => !decide (ToLower lower q.InputName = n))).foldl
        (extractStep lower) w) := by
  induction ps generalizing v w with
  | nil => exact h
  | cons p ps ih =>
    by_cases hp : ToLower lower p.InputName = n
    · rw [List.filter_cons_of_neg (by simp [hp]), List.foldl_cons]
      exact ih _ _ (extractStep_named_agree lower n v w p hp h)
    · rw [List.filter_cons_of_pos (by simp [hp]), List.foldl_cons, List.foldl_cons]
      exact ih _ _ (extractStep_other_agree lower n v w p hp h)

/-- States that agree outside `n`, to start with. -/
theorem agreeExcept_refl (n : String) (v : Vars) : AgreeExcept n v v :=
  ⟨Or.inr rfl, Or.inr rfl, Or.inr rfl, Or.inr rfl, Or.inr rfl, Or.inr rfl, Or.inr rfl⟩

/-- When the last parameter named `n` assigns, the parameters of that name before
it do not matter. -/
theorem extract_dropEarlier (lower : Char → Char) (n : String) (before after : List Param)
    (p : Param) (hn : ToLower lower p.InputName = n)
    (hafter : ∀ q ∈ after, ToLower lower q.InputName ≠ n)
    (ha : assigns lower p = true) :
    extract lower (dropEarlier lower n (before ++ p :: after)) =
      extract lower (before ++ p :: after) := by
  rw [dropEarlier_append lower n before after p hn hafter]
  unfold extract
  rw [List.foldl_append, List.foldl_append, List.foldl_cons, List.foldl_cons,
    extractStep_assign_eq lower n _ _ p hn ha
      (foldl_filter_agreeExcept lower n before Vars.init Vars.init (agreeExcept_refl n _))]

/-- C16, as stated, fails for `action`, `db` and `expiration`: a blank last action
leaves the earlier "set" in place, where the list without the earlier occurrence
gives "get"; a last `db` that does not scan leaves the earlier 5, where the list
without the earlier occurrence gives 0. -/
theorem C16_last_seen_counterexample :
    dropEarlier asciiOnly "action" [⟨"action", "set"⟩, ⟨"action", ""⟩] = [⟨"action", ""⟩] ∧
      (extract asciiOnly [⟨"action", "set"⟩, ⟨"action", ""⟩]).action = "set" ∧
      (extract asciiOnly
        (dropEarlier asciiOnly "action" [⟨"action", "set"⟩, ⟨"action", ""⟩])).action = "get" ∧
      dropEarlier asciiOnly "db" [⟨"db", "5"⟩, ⟨"db", "abc"⟩] = [⟨"db", "abc"⟩] ∧
      (extract asciiOnly [⟨"db", "5"⟩, ⟨"db", "abc"⟩]).db = 5 ∧
      (extract asciiOnly (dropEarlier asciiOnly "db" [⟨"db", "5"⟩, ⟨"db", "abc"⟩])).db = 0 := by
  decide

/-- C16, amended: let `p` be the last parameter named `n` (in any letter case).
For `n` one of `addr`, `password`, `key`, `value`, and for any `n` when the loop
assigns on `p` (a non-blank `action`, a `db` or `expiration` that scans), the
variables after the loop are those of the list with every earlier parameter
named `n` left out. -/
theorem C16_last_assigning_wins (lower : Char → Char) (n : String)
    (before after : List Param) (p : Param) (hn : ToLower lower p.InputName = n)
    (hafter : ∀ q ∈ after, ToLower lower q.InputName ≠ n) :
    (n ∈ ["addr", "password", "key", "value"] →
      extract lower (dropEarlier lower n (before ++ p :: after)) =
        extract lower (before ++ p :: after)) ∧
    (assigns lower p = true →
      extract lower (dropEarlier lower n (before ++ p :: after)) =
        extract lower (before ++ p :: after)) := by
  refine ⟨fun hmem => ?_, fun ha => extract_dropEarlier lower n before after p hn hafter ha⟩
  have ha : assigns lower p = true := by
    simp only [List.mem_cons, List.mem_singleton, List.not_mem_nil, or_false] at hmem
    unfold assigns
    rcases hmem with h | h | h | h <;> subst h <;> simp [hn]
  exact extract_dropEarlier lower n before after p hn hafter ha

/-- C16, amended, at a key given twice and at an action given twice. -/
theorem C16_last_assigning_wins_witness :
    ToLower asciiOnly "KEY" = "key" ∧
      (∀ q ∈ [(⟨"value", "v"⟩ : Param)], ToLower asciiOnly q.InputName ≠ "key") ∧
      extract asciiOnly
          (dropEarlier asciiOnly "key"
            ([⟨"key", "a"⟩, ⟨"addr", "h:6379"⟩] ++ ⟨"KEY", "b"⟩ :: [⟨"value", "v"⟩])) =
        extract asciiOnly
          ([⟨"key", "a"⟩, ⟨"addr", "h:6379"⟩] ++ ⟨"KEY", "b"⟩ :: [⟨"value", "v"⟩]) ∧
      dropEarlier asciiOnly "key"
          ([⟨"key", "a"⟩, ⟨"addr", "h:6379"⟩] ++ ⟨"KEY", "b"⟩ :: [⟨"value", "v"⟩]) =
        [⟨"addr", "h:6379"⟩, ⟨"KEY", "b"⟩, ⟨"value", "v"⟩] :=
  ⟨by decide, by decide,
    (C16_last_assigning_wins asciiOnly "key" [⟨"key", "a"⟩, ⟨"addr", "h:6379"⟩]
      [⟨"value", "v"⟩] ⟨"KEY", "b"⟩ (by decide) (by decide)).1 (by decide),
    by decide⟩

end RedisComponent
